import Mathlib

/-!
Verification development for the streaming tag-protocol engine of the
CWM-AI repository: the dyad-tag scanners (`hasUnclosedDyadWrite`,
`escapeDyadTags`), the response validator (`detectMarkdownCodeBlocks`,
`detectCodexCliTools`, `validateDyadTagStructure`,
`detectProhibitedInstructions`, `validateModeCompliance`,
`validateResponse`), the fast and streaming monitors, the corrective
agent (`attemptCorrection`), the workflow manager, and the orchestrator
correction loop.

Texts are modelled as `List Char` (JavaScript strings are sequences of
characters; none of the modelled code depends on UTF-16 surrogate
behaviour).  JavaScript regular expressions used by the source are
modelled semantically: every regex in the source starts with a literal,
so a match attempt at a position succeeds exactly when the literal is a
prefix there and the rest of the pattern can consume the following
characters; the relevant backtracking arguments are recorded as comments
on each matcher.  `String.prototype.replace`/`match`/`exec` with the `g`
flag are modelled by scanners that find the leftmost match and resume
immediately after its end, exactly as the JavaScript engine does (none
of the source's patterns can match the empty string).
-/

/-- Shorthand: the character list of a string literal. -/
def chars (s : String) : List Char := s.toList

/-- JavaScript `\w` (ASCII word character: letter, digit or underscore). -/
def isWordChar (c : Char) : Bool :=
  ('a' ≤ c && c ≤ 'z') || ('A' ≤ c && c ≤ 'Z') || ('0' ≤ c && c ≤ '9') || c = '_'

/-- JavaScript `\s`, restricted to the ASCII whitespace characters that can
occur in the modelled texts (space, tab, newline, carriage return, vertical
tab, form feed). -/
def isSpaceChar (c : Char) : Bool :=
  c = ' ' || c = '\t' || c = '\n' || c = '\r' || c = '\x0b' || c = '\x0c'

/-- Model: `containsSubstr pat s` models JavaScript `s.includes(pat)` /
`new RegExp(literal).test(s)`: does `pat` occur as a contiguous substring
of `s`? -/
def containsSubstr (pat : List Char) : List Char → Bool
  | [] => pat.isEmpty
  | c :: t => pat.isPrefixOf (c :: t) || containsSubstr pat t

/-- Model: `findSubstrIdx pat s` models `s.indexOf(pat)` (also the match index of a
purely literal regex): the first index at which `pat` occurs in `s`. -/
def findSubstrIdx (pat : List Char) : List Char → Option Nat
  | [] => if pat.isEmpty then some 0 else none
  | c :: t =>
    if pat.isPrefixOf (c :: t) then some 0
    else (findSubstrIdx pat t).map (· + 1)

/-- Model: `existsSub p s` is true when `p` holds of some suffix of `s` (including
the empty suffix): the "`regex.test` tries every start position" scanner. -/
def existsSub (p : List Char → Bool) : List Char → Bool
  | [] => p []
  | c :: t => p (c :: t) || existsSub p t

/-- One attempt of a regex matcher at the start of a suffix: a matcher
returns the captured payload and the length of the whole match, or `none`
when the pattern cannot match at this position. -/
def MatcherT (α : Type) : Type := List Char → Option (α × Nat)

/-- Leftmost match: try the matcher at every start position in order and
return `(index, payload, length)` of the first success.  Models
`regex.exec` / non-global `String.match`. -/
def firstMatchFrom (m : MatcherT α) : List Char → Option (Nat × α × Nat)
  | [] => (m []).map (fun r => (0, r.1, r.2))
  | c :: t =>
    match m (c :: t) with
    | some (a, len) => some (0, a, len)
    | none => (firstMatchFrom m t).map (fun r => (r.1 + 1, r.2.1, r.2.2))

/-- Structural worker for `gExecAll`; `fuel` bounds the number of matches
and is consumed once per match.  Every match advances the scan position by
`i + len.max 1 ≥ 1` characters, so `fuel = s.length` always suffices and
the `fuel = 0` fallback is only reached on the empty remainder, where the
scan is over anyway. -/
def gExecAllAux (m : MatcherT α) : Nat → List Char → List (Nat × α)
  | 0, _ => []
  | fuel + 1, s =>
    match firstMatchFrom m s with
    | none => []
    | some (i, a, len) =>
      (i, a) :: (gExecAllAux m fuel (s.drop (i + len.max 1))).map
        (fun r => (r.1 + (i + len.max 1), r.2))

/-- All matches under `g`-flag semantics: find the leftmost match, record
it, and resume scanning immediately after its end.  Every matcher used in
this development requires at least one literal character, so matches are
nonempty; `len.max 1` only guards against a non-advancing scan and is
never the value taken.  Returns `(index, payload)` pairs in document
order. -/
def gExecAll (m : MatcherT α) (s : List Char) : List (Nat × α) :=
  gExecAllAux m s.length s

/-- Matcher for `LIT[^>]*>` (an opening dyad tag with arbitrary attributes):
the literal, then the greedy run of non-`>` characters, then `>`.  The
greedy run must stop exactly at the first `>` (every shorter run is followed
by a non-`>` character, which cannot match the final `>`), so the match
extends to the first `>` at or after the end of the literal, and fails when
no such `>` exists. -/
def openTagMatcher (lit : List Char) : MatcherT Unit := fun s =>
  if lit.isPrefixOf s then
    match List.findIdx? (fun c => c = '>') (s.drop lit.length) with
    | some k => some ((), lit.length + k + 1)
    | none => none
  else none

/-- Model: `tagTest lit s` models `/LIT[^>]*>/.test(s)`. -/
def tagTest (lit : List Char) (s : List Char) : Bool :=
  (firstMatchFrom (openTagMatcher lit) s).isSome

/-- Matcher for a plain literal (e.g. `/<\/dyad-write>/`). -/
def litMatcher (lit : List Char) : MatcherT Unit := fun s =>
  if lit.isPrefixOf s then some ((), lit.length) else none

/-- From src/unnamed/part_006 `hasUnclosedDyadWrite`: run
`/<dyad-write[^>]*>/g` over the text recording the index of every match;
if no opening tag was found return `false`; otherwise test
`/<\/dyad-write>/` on the substring starting at the last opening tag's
index and return its negation. -/
def hasUnclosedDyadWrite (text : List Char) : Bool :=
  let opens := (gExecAll (openTagMatcher (chars "<dyad-write")) text).map (·.1)
  match opens.getLast? with
  | none => false
  | some lastOpenIndex =>
    !containsSubstr (chars "</dyad-write>") (text.drop lastOpenIndex)

/-- Model: `replaceAll pat rep s` models `s.replace(/pat/g, rep)` for a pattern
that is a nonempty literal: scan left to right; at each position either the
pattern matches and is replaced (resuming after the consumed occurrence) or
one character is copied.  (The source never calls `replace` with an empty
pattern; for `pat = []` this model performs no replacement.) -/
def replaceAllAux (pat rep : List Char) : Nat → List Char → List Char
  | 0, s => s
  | _fuel + 1, [] => []
  | fuel + 1, c :: t =>
    if pat ≠ [] ∧ pat.isPrefixOf (c :: t) then
      rep ++ replaceAllAux pat rep fuel ((c :: t).drop pat.length)
    else
      c :: replaceAllAux pat rep fuel t

/-- The wrapper supplying the fuel: every step of the worker consumes at
least one input character (a replaced occurrence is nonempty because of
the `pat ≠ []` guard), so `s.length` steps always finish the scan and the
`fuel = 0` fallback is never reached with a nonempty remainder. -/
def replaceAll (pat rep : List Char) (s : List Char) : List Char :=
  replaceAllAux pat rep s.length s

/-- From src/unnamed/part_006 `escapeDyadTags` (string branch): replace
every `<dyad` with `＜dyad` and then every `</dyad` with `＜/dyad`
(fullwidth less-than sign U+FF1C).  Non-string inputs are first coerced to
a string by the source and then fed through these same two replacements,
so the escaping itself is a function of the coerced string modelled here. -/
def escapeDyadTags (text : List Char) : List Char :=
  replaceAll (chars "</dyad") (chars "＜/dyad")
    (replaceAll (chars "<dyad") (chars "＜dyad") text)

/-! ## Response Validator (src/unnamed/part_002, `response_validator`) -/

/-- Violation severity. -/
inductive Severity
  | critical
  | warning
deriving DecidableEq, Repr

/-- Model: `ViolationType` from the response validator. -/
inductive ViolationType
  | code_block
  | codex_tool
  | mode_violation
  | malformed_tag
  | prohibited_content
deriving DecidableEq, Repr

/-- Model: `ValidationViolation` record. -/
structure ValidationViolation where
  type : ViolationType
  message : List Char
  context : List Char
  severity : Severity
deriving DecidableEq, Repr

/-- Model: `ValidationContext`: conversation mode, optional workflow step and
optional provider name (the last is never read by the validator). -/
structure ValidationContext where
  mode : String
  workflowStep : Option String
  modelProvider : Option String
deriving DecidableEq, Repr

/-- Model: `snippet = match.substring(0, 100) + (match.length > 100 ? "..." : "")`. -/
def truncate100 (l : List Char) : List Char :=
  l.take 100 ++ (if 100 < l.length then chars "..." else [])

/-- Matcher for one fenced block `/```[\s\S]*?```/`: the opening fence,
then the lazy any-character run, which stops at the first closing fence.
Payload is the whole matched block. -/
def fenceBlockMatcher : MatcherT (List Char) := fun s =>
  if (chars "```").isPrefixOf s then
    match findSubstrIdx (chars "```") (s.drop 3) with
    | some k => some (s.take (3 + k + 3), 3 + k + 3)
    | none => none
  else none

/-- Model: `detectMarkdownCodeBlocks`: one critical `code_block` violation per
`g`-match of `/```[\s\S]*?```/`, with the truncated match as context. -/
def detectMarkdownCodeBlocks (response : List Char) : List ValidationViolation :=
  (gExecAll fenceBlockMatcher response).map fun r =>
    { type := ViolationType.code_block
      severity := Severity.critical
      message := chars "Markdown code blocks are prohibited for file content. Use <dyad-write> tags instead."
      context := truncate100 r.2 }

/-- Case-insensitive literal prefix test: `pat` is given in lowercase and is
compared against the lowercased text characters (models the regex `i` flag
on the ASCII-only tool names). -/
def ciPrefix : List Char → List Char → Bool
  | [], _ => true
  | _ :: _, [] => false
  | a :: as, b :: bs => (a = b.toLower) && ciPrefix as bs

/-- Scanner for `/\btool\b/gi`-style `test`: an occurrence of `tool`
(case-insensitively) whose neighbours on both sides are non-word characters
or the ends of the text.  `prev` is the character before the current
position (`none` at the start of the text). -/
def toolOccursAux (tool : List Char) : Option Char → List Char → Bool
  | _, [] => false
  | prev, c :: t =>
    ((match prev with
      | none => true
      | some d => !isWordChar d) &&
     ciPrefix tool (c :: t) &&
     (match (c :: t).drop tool.length with
      | [] => true
      | d :: _ => !isWordChar d))
    || toolOccursAux tool (some c) t

/-- Model: `/\btool\b/gi.test(response)`. -/
def toolOccurs (tool : List Char) (s : List Char) : Bool :=
  toolOccursAux tool none s

/-- Model: `detectCodexCliTools`: one critical `codex_tool` violation per
prohibited tool name that occurs (word-bounded, case-insensitive) in the
response, in the fixed list order. -/
def detectCodexCliTools (response : List Char) : List ValidationViolation :=
  ["apply_patch", "turbo_edit", "patch_file", "edit_file", "write_file"].filterMap
    fun tool =>
      if toolOccurs (chars tool) response then
        some { type := ViolationType.codex_tool
               severity := Severity.critical
               message := chars "Detected Codex CLI tool \"" ++ chars tool ++
                 chars "\". These tools do not exist in Dyad. Use <dyad-write> tags instead."
               context := chars "Found reference to: " ++ chars tool }
      else none

/-- Model: `validateDyadTagStructure`: compare the number of `g`-matches of
`/<dyad-write[^>]*>/` with the number of literal `</dyad-write>` matches;
a mismatch is one critical `malformed_tag` violation. -/
def validateDyadTagStructure (response : List Char) : List ValidationViolation :=
  let openCount := (gExecAll (openTagMatcher (chars "<dyad-write")) response).length
  let closeCount := (gExecAll (litMatcher (chars "</dyad-write>")) response).length
  if openCount ≠ closeCount then
    [{ type := ViolationType.malformed_tag
       severity := Severity.critical
       message := chars "Mismatched dyad-write tags: " ++ chars (toString openCount) ++
         chars " opening tags, " ++ chars (toString closeCount) ++ chars " closing tags"
       context := chars "Found " ++ chars (toString openCount) ++ chars " <dyad-write>, " ++
         chars (toString closeCount) ++ chars " </dyad-write>" }]
  else []

/-- Split on `'\n'`; the resulting pieces are exactly the positions where a
multiline (`m`-flag) `^` anchor can match (the modelled texts contain no
`\r` or unicode line separators). -/
def splitLines : List Char → List (List Char)
  | [] => [[]]
  | c :: t =>
    if c = '\n' then [] :: splitLines t
    else
      match splitLines t with
      | [] => [[c]]
      | l :: r => (c :: l) :: r

/-- Model: `/^PAT/im.test(content)`: some line starts (case-insensitively) with the
lowercase literal `pat`. -/
def lineStartCI (pat : List Char) (content : List Char) : Bool :=
  (splitLines content).any fun l => ciPrefix pat l

/-- Model: `/^-\s*WORD/im.test(content)`: some line starts with `-`, then a
whitespace run, then (case-insensitively) `word`.  The greedy `\s*` must
stop at the first non-whitespace character, which then has to begin `word`. -/
def bulletStartCI (word : List Char) (content : List Char) : Bool :=
  (splitLines content).any fun l =>
    match l with
    | '-' :: rest => ciPrefix word (rest.dropWhile isSpaceChar)
    | _ => false

/-- The narrative-content heuristics of `detectProhibitedInstructions`
(eight `/^.../im` patterns, tried in order with `break` on the first hit —
so at most one violation per write tag, modelled by a single disjunction). -/
def prohibitedContentTest (content : List Char) : Bool :=
  lineStartCI (chars "summary:") content ||
  lineStartCI (chars "here\x27s what i changed") content ||
  lineStartCI (chars "i\x27ve updated") content ||
  lineStartCI (chars "click") content ||
  lineStartCI (chars "please") content ||
  lineStartCI (chars "now hit refresh") content ||
  bulletStartCI (chars "fixed") content ||
  bulletStartCI (chars "added") content

/-- Matcher for `/<dyad-write[^>]*>([\s\S]*?)<\/dyad-write>/`: an opening
tag (literal, greedy non-`>` run, `>`), then the lazy content run, stopping
at the first closing tag.  Payload is the captured content. -/
def writeContentMatcher : MatcherT (List Char) := fun s =>
  match openTagMatcher (chars "<dyad-write") s with
  | some (_, openLen) =>
    match findSubstrIdx (chars "</dyad-write>") (s.drop openLen) with
    | some k => some ((s.drop openLen).take k, openLen + k + 13)
    | none => none
  | none => none

/-- Model: `detectProhibitedInstructions`: for each `g`-match of a complete
`<dyad-write ...>content</dyad-write>` span whose content matches one of
the narrative heuristics, one critical `prohibited_content` violation. -/
def detectProhibitedInstructions (response : List Char) : List ValidationViolation :=
  (gExecAll writeContentMatcher response).filterMap fun r =>
    if prohibitedContentTest r.2 then
      some { type := ViolationType.prohibited_content
             severity := Severity.critical
             message := chars "Instructions or summaries found inside <dyad-write> tag. Only file content is allowed."
             context := truncate100 r.2 }
    else none

/-- Matcher for `/<dyad-write\s+path="([^"]+)"/`: the literal open tag name,
then a (maximal, since `path` starts with a non-whitespace character)
nonempty whitespace run, then `path="`, then the (maximal, since it stops
at the first quote) nonempty run of non-quote characters, then the closing
quote.  Payload is the captured path. -/
def writePathMatcher : MatcherT (List Char) := fun s =>
  if (chars "<dyad-write").isPrefixOf s then
    let r1 := s.drop 11
    let ws := r1.takeWhile isSpaceChar
    if ws.isEmpty then none
    else
      let r2 := r1.drop ws.length
      if (chars "path=\"").isPrefixOf r2 then
        let r3 := r2.drop 6
        let cap := r3.takeWhile (fun c => c ≠ '"')
        if cap.isEmpty then none
        else if (r3.drop cap.length).isEmpty then none
        else some (cap, 11 + ws.length + 6 + cap.length + 1)
      else none
  else none

/-- The `path` attributes extracted by the docs-mode branch of
`validateModeCompliance` (its `pathRegex.exec` while-loop), in document
order. -/
def extractWritePaths (response : List Char) : List (List Char) :=
  (gExecAll writePathMatcher response).map (·.2)

/-- Model: `filePath.endsWith(".md")`. -/
def isMarkdownPath (filePath : List Char) : Bool :=
  (chars ".md").isSuffixOf filePath

/-- Model: `filePath.startsWith("docs/") || filePath === "README.md"`. -/
def isDocsFolderPath (filePath : List Char) : Bool :=
  (chars "docs/").isPrefixOf filePath || filePath = chars "README.md"

/-- The violation the docs-mode branch pushes for a non-conforming path. -/
def docsModeViolation (filePath : List Char) : ValidationViolation :=
  { type := ViolationType.mode_violation
    severity := Severity.critical
    message := chars "Docs mode only allows markdown files in docs/ or README.md. Found: " ++ filePath
    context := filePath }

/-- Model: `validateModeCompliance`: mode/step-dependent checks, each appending
its violations in source order (planning step, docs step, agent mode, ask
mode).  The dyad-tag presence tests are the `/<dyad-...[^>]*>/.test` calls
of the source. -/
def validateModeCompliance (response : List Char) (ctx : ValidationContext) :
    List ValidationViolation :=
  let hasDyadWrite := tagTest (chars "<dyad-write") response
  let hasDyadDelete := tagTest (chars "<dyad-delete") response
  let hasDyadRename := tagTest (chars "<dyad-rename") response
  let hasDyadAddDep := tagTest (chars "<dyad-add-dependency") response
  let hasAnyDyadTag := hasDyadWrite || hasDyadDelete || hasDyadRename || hasDyadAddDep
  (if ctx.workflowStep = some "planning" && hasAnyDyadTag then
    [{ type := ViolationType.mode_violation
       severity := Severity.critical
       message := chars "Planning mode prohibits file creation/modification. Only markdown plans are allowed."
       context := chars "Found dyad tags in planning mode" }]
   else []) ++
  (if ctx.workflowStep = some "docs" && hasDyadWrite then
    (extractWritePaths response).filterMap fun filePath =>
      if !(isMarkdownPath filePath && isDocsFolderPath filePath) then
        some (docsModeViolation filePath)
      else none
   else []) ++
  (if ctx.mode = "agent" && hasAnyDyadTag then
    [{ type := ViolationType.mode_violation
       severity := Severity.critical
       message := chars "Agent mode prohibits dyad tags. Use MCP tools (execute_command, web-search) instead."
       context := chars "Found dyad tags in agent mode" }]
   else []) ++
  (if ctx.mode = "ask" && hasAnyDyadTag then
    [{ type := ViolationType.mode_violation
       severity := Severity.critical
       message := chars "Ask mode prohibits file operations. This mode is for questions and explanations only."
       context := chars "Found dyad tags in ask mode" }]
   else [])

/-- Model: `ValidationResult`. -/
structure ValidationResult where
  isValid : Bool
  violations : List ValidationViolation
  warnings : List ValidationViolation
deriving DecidableEq, Repr

/-- Model: `validateResponse`: run all five checks, split by severity; valid iff
no critical violation. -/
def validateResponse (response : List Char) (ctx : ValidationContext) :
    ValidationResult :=
  let allViolations :=
    detectMarkdownCodeBlocks response ++
    detectCodexCliTools response ++
    validateDyadTagStructure response ++
    detectProhibitedInstructions response ++
    validateModeCompliance response ctx
  let criticalViolations := allViolations.filter (fun v => v.severity = Severity.critical)
  let warnings := allViolations.filter (fun v => v.severity = Severity.warning)
  { isValid := criticalViolations.isEmpty
    violations := criticalViolations
    warnings := warnings }

/-! ## Fast Monitor (src/unnamed/part_003, `fast_monitor`) -/

/-- Model: `ViolationResult` returned by `FastMonitor.checkChunk` (optional fields
are `undefined` — modelled `none` — on the no-violation result). -/
structure ViolationResult where
  hasViolation : Bool
  violationType : Option String
  correction : Option String
  shouldAbort : Option Bool
deriving DecidableEq, Repr

/-- The Fast Monitor's per-response state: construction parameters plus the
`detectedViolations` seen-set (modelled as the list of added keys, newest
first). -/
structure FastMonitor where
  mode : String
  workflowStep : Option String
  detectedViolations : List String
deriving DecidableEq, Repr

/-- Model: `CACHED_CORRECTIONS.markdown_code_block`. -/
def FastMonitor.correctionMarkdown : String :=
  "STOP! You\x27re using markdown code blocks (```) which are PROHIBITED.\n\nUse ONLY <dyad-write> tags:\n<dyad-write path=\"src/Component.tsx\" description=\"Create component\">\nYOUR CODE HERE\n</dyad-write>\n\nContinue with <dyad-write> tags."

/-- Model: `CACHED_CORRECTIONS.codex_cli_tool`. -/
def FastMonitor.correctionCodex : String :=
  "STOP! Codex CLI tools (apply_patch, turbo_edit, etc.) DO NOT EXIST in Dyad.\n\nUse ONLY Dyad tags:\n<dyad-write path=\"...\">content</dyad-write>\n\nContinue using Dyad tags."

/-- Model: `CACHED_CORRECTIONS.planning_file_creation`. -/
def FastMonitor.correctionPlanning : String :=
  "STOP! You\x27re in PLANNING MODE - file creation is PROHIBITED.\n\nWrite a Markdown plan only. Use write_to_file tool to create \x27implementation_plan.md\x27.\n\nContinue with planning documentation only."

/-- Model: `CACHED_CORRECTIONS.docs_non_markdown`. -/
def FastMonitor.correctionDocs : String :=
  "STOP! DOCS MODE only allows .md files in docs/ directory.\n\nOnly create documentation files.\n\nContinue with .md files only."

/-- Model: `CACHED_CORRECTIONS.agent_dyad_tags`. -/
def FastMonitor.correctionAgent : String :=
  "STOP! AGENT MODE does not support <dyad-write> or other Dyad tags.\n\nUse ONLY MCP tools:\n- execute_command for shell commands\n- web-search for information\n\nContinue with MCP tools only."

/-- Constructor: `workflowStep: params.workflowStep || null` (JavaScript
`||` also maps the empty string to `null`); the seen-set starts empty. -/
def FastMonitor.create (mode : String) (workflowStep : Option String) : FastMonitor :=
  { mode := mode
    workflowStep := match workflowStep with
      | some s => if s = "" then none else some s
      | none => none
    detectedViolations := [] }

/-- Model: `detectMarkdownCodeBlock`: `/```[\w]*\s*\n/.test(text)`.  At a match
position: the fence literal, then the maximal word-character run (a shorter
run is followed by a word character, which neither `\s` nor `\n` accepts),
then a whitespace run ending in `\n` — i.e. the maximal whitespace run
after the word run contains a `'\n'` (a `'\n'` is itself whitespace, so
everything before the first `'\n'` in that run is whitespace). -/
def FastMonitor.detectMarkdownCodeBlock (text : List Char) : Bool :=
  existsSub
    (fun l =>
      (chars "```").isPrefixOf l &&
      ((((l.drop 3).dropWhile isWordChar).takeWhile isSpaceChar).contains '\n'))
    text

/-- Model: `detectCodexCliTool`: plain `String.includes` over the five tool
names. -/
def FastMonitor.detectCodexCliTool (text : List Char) : Bool :=
  ["apply_patch", "turbo_edit", "patch_file", "edit_file", "write_file"].any
    fun tool => containsSubstr (chars tool) text

/-- Value test of `/<dyad-write[^>]*path="[^"]*\.md"/` after the `path="`
literal: the run up to the first quote must end in `.md` and the closing
quote must exist (the `[^"]*` run and the `.md` literal contain no quote,
so the quote that closes the pattern is necessarily the first quote). -/
def mdValueCheck (r : List Char) : Bool :=
  let v := r.takeWhile (fun d => d ≠ '"')
  (chars ".md").isSuffixOf v && !(r.drop v.length).isEmpty

/-- Scan the region after a `<dyad-write` literal for a `path="…​.md"`
attribute: the `[^>]*` part of the pattern lets `path="` occur anywhere
before the first `'>'`. -/
def scanMdPathRegion : List Char → Bool
  | [] => false
  | c :: t =>
    if (chars "path=\"").isPrefixOf (c :: t) && mdValueCheck ((c :: t).drop 6) then
      true
    else if c = '>' then false
    else scanMdPathRegion t

/-- Model: `text.match(/<dyad-write[^>]*path="[^"]*\.md"/) !== null`. -/
def dyadWriteMdPathTest (text : List Char) : Bool :=
  existsSub
    (fun l => (chars "<dyad-write").isPrefixOf l && scanMdPathRegion (l.drop 11))
    text

/-- The no-violation result `{ hasViolation: false }`. -/
def noViolation : ViolationResult :=
  { hasViolation := false, violationType := none, correction := none, shouldAbort := none }

/-- Model: `checkModeViolations`: planning, docs and agent checks in source order.
A check whose violation kind is already in the seen-set falls through to
the next check, exactly as the nested `if`s of the source do. -/
def FastMonitor.checkModeViolations (st : FastMonitor) (text : List Char) :
    ViolationResult × FastMonitor :=
  if (st.workflowStep = some "planning" || st.mode = "planning") &&
     containsSubstr (chars "<dyad-write") text &&
     !(st.detectedViolations.contains "planning_file_creation") then
    ({ hasViolation := true, violationType := some "planning_file_creation",
       correction := some FastMonitor.correctionPlanning, shouldAbort := some true },
     { st with detectedViolations := "planning_file_creation" :: st.detectedViolations })
  else if (st.workflowStep = some "docs" || st.mode = "docs") &&
          (containsSubstr (chars "<dyad-write") text && !dyadWriteMdPathTest text) &&
          !(st.detectedViolations.contains "docs_non_markdown") then
    ({ hasViolation := true, violationType := some "docs_non_markdown",
       correction := some FastMonitor.correctionDocs, shouldAbort := some true },
     { st with detectedViolations := "docs_non_markdown" :: st.detectedViolations })
  else if st.mode = "agent" &&
          (containsSubstr (chars "<dyad-write") text ||
           containsSubstr (chars "<dyad-delete") text ||
           containsSubstr (chars "<dyad-rename") text) &&
          !(st.detectedViolations.contains "agent_dyad_tags") then
    ({ hasViolation := true, violationType := some "agent_dyad_tags",
       correction := some FastMonitor.correctionAgent, shouldAbort := some true },
     { st with detectedViolations := "agent_dyad_tags" :: st.detectedViolations })
  else (noViolation, st)

/-- Model: `checkChunk`: markdown fence check, then Codex-tool check, then the
mode checks; the first check that fires on a kind not yet in the seen-set
wins, adds its kind, and aborts; a firing check whose kind is already seen
falls through. -/
def FastMonitor.checkChunk (st : FastMonitor) (chunk : List Char) :
    ViolationResult × FastMonitor :=
  if FastMonitor.detectMarkdownCodeBlock chunk &&
     !(st.detectedViolations.contains "markdown_code_block") then
    ({ hasViolation := true, violationType := some "markdown_code_block",
       correction := some FastMonitor.correctionMarkdown, shouldAbort := some true },
     { st with detectedViolations := "markdown_code_block" :: st.detectedViolations })
  else if FastMonitor.detectCodexCliTool chunk &&
          !(st.detectedViolations.contains "codex_cli_tool") then
    ({ hasViolation := true, violationType := some "codex_cli_tool",
       correction := some FastMonitor.correctionCodex, shouldAbort := some true },
     { st with detectedViolations := "codex_cli_tool" :: st.detectedViolations })
  else
    FastMonitor.checkModeViolations st chunk

/-- Model: `reset()`: clear the seen-set. -/
def FastMonitor.reset (st : FastMonitor) : FastMonitor :=
  { st with detectedViolations := [] }

/-- Feed a sequence of texts to one Fast Monitor instance, collecting the
per-call results. -/
def FastMonitor.run (st : FastMonitor) : List (List Char) → List ViolationResult
  | [] => []
  | t :: ts =>
    let r := FastMonitor.checkChunk st t
    r.1 :: FastMonitor.run r.2 ts

/-- How many results of a run report violation kind `k`. -/
def countReports (k : String) (rs : List ViolationResult) : Nat :=
  (rs.filter fun r => r.violationType = some k).length

/-! ## Streaming Monitor (src/src/ipc/utils/streaming_monitor.ts) -/

/-- Model: `ViolationDetection` entries produced by `detectQuickViolations`. -/
structure ViolationDetection where
  type : String
  context : List Char
deriving DecidableEq, Repr

/-- Model: `MonitorAnalysis` returned by `analyzeChunk`. -/
structure MonitorAnalysis where
  hasViolation : Bool
  violationType : Option String
  correction : Option String
deriving DecidableEq, Repr

/-- The Streaming Monitor's per-response state (the injected router model,
settings and app path only feed the abstracted router call and are not
part of the modelled state). -/
structure StreamingMonitor where
  mode : String
  workflowStep : Option String
  accumulatedResponse : List Char
  violationsDetected : List String
deriving DecidableEq, Repr

/-- Constructor: `workflowStep: params.workflowStep || null`, empty
accumulator and seen-set. -/
def StreamingMonitor.create (mode : String) (workflowStep : Option String) :
    StreamingMonitor :=
  { mode := mode
    workflowStep := match workflowStep with
      | some s => if s = "" then none else some s
      | none => none
    accumulatedResponse := []
    violationsDetected := [] }

/-- Matcher for the Streaming Monitor's `/```[\w]*\n/`: fence literal, then
the maximal word run, then a literal `'\n'`.  Payload is `match[0]`. -/
def smFenceMatcher : MatcherT (List Char) := fun s =>
  if (chars "```").isPrefixOf s then
    let w := (s.drop 3).takeWhile isWordChar
    match (s.drop 3).drop w.length with
    | '\n' :: _ => some (s.take (3 + w.length + 1), 3 + w.length + 1)
    | _ => none
  else none

/-- Model: `detectQuickViolations`: fence check (first match, if any), the four
`includes` Codex-tool checks, then planning / docs / agent mode checks, in
source order. -/
def StreamingMonitor.detectQuickViolations (mode : String) (workflowStep : Option String)
    (text : List Char) : List ViolationDetection :=
  (match firstMatchFrom smFenceMatcher text with
   | some (_, m, _) => [{ type := "markdown_code_block", context := m }]
   | none => []) ++
  (["apply_patch", "turbo_edit", "patch_file", "edit_file"].filterMap fun tool =>
    if containsSubstr (chars tool) text then
      some { type := "codex_cli_tool", context := chars tool }
    else none) ++
  (if (workflowStep = some "planning" || mode = "planning") &&
      containsSubstr (chars "<dyad-write") text then
    [{ type := "planning_mode_violation", context := chars "<dyad-write in planning mode" }]
   else []) ++
  (if (workflowStep = some "docs" || mode = "docs") &&
      (containsSubstr (chars "<dyad-write") text && !dyadWriteMdPathTest text) then
    [{ type := "docs_mode_violation", context := chars "Non-markdown file in docs mode" }]
   else []) ++
  (if mode = "agent" &&
      (containsSubstr (chars "<dyad-write") text ||
       containsSubstr (chars "<dyad-delete") text ||
       containsSubstr (chars "<dyad-rename") text) then
    [{ type := "agent_mode_violation", context := chars "Dyad tags in agent mode" }]
   else [])

/-- Model: `analyzeChunk`: append the chunk to the accumulator, detect violations
on the whole accumulated text, and report the first detected violation
whose kind is not yet in the seen-set (adding it); otherwise no violation.
`gen` abstracts the awaited `generateCorrection` router call (`none`
models its failure path, which logs and returns `undefined` rather than
raising). -/
def StreamingMonitor.analyzeChunk (gen : ViolationDetection → Option String)
    (st : StreamingMonitor) (chunk : List Char) : MonitorAnalysis × StreamingMonitor :=
  let acc := st.accumulatedResponse ++ chunk
  let violations := StreamingMonitor.detectQuickViolations st.mode st.workflowStep acc
  match violations.find? (fun v => !(st.violationsDetected.contains v.type)) with
  | some v =>
    ({ hasViolation := true, violationType := some v.type, correction := gen v },
     { st with accumulatedResponse := acc,
               violationsDetected := v.type :: st.violationsDetected })
  | none =>
    ({ hasViolation := false, violationType := none, correction := none },
     { st with accumulatedResponse := acc })

/-- Model: `reset()`: clear the accumulator and the seen-set. -/
def StreamingMonitor.reset (st : StreamingMonitor) : StreamingMonitor :=
  { st with accumulatedResponse := [], violationsDetected := [] }

/-- Feed a sequence of chunks to one Streaming Monitor instance, collecting
the per-call analyses. -/
def StreamingMonitor.run (gen : ViolationDetection → Option String)
    (st : StreamingMonitor) : List (List Char) → List MonitorAnalysis
  | [] => []
  | t :: ts =>
    let r := StreamingMonitor.analyzeChunk gen st t
    r.1 :: StreamingMonitor.run gen r.2 ts

/-- How many analyses of a run report violation kind `k`. -/
def countAnalyses (k : String) (rs : List MonitorAnalysis) : Nat :=
  (rs.filter fun r => r.violationType = some k).length

/-! ## Workflow Manager (src/src/ipc/utils/scripts/integrate_agents.sh,
embedded `workflow_manager` TypeScript) -/

/-- The `WorkflowStep` union type: the only values `forceStep` can receive
(TypeScript enforces this statically). -/
inductive WorkflowStep
  | planning
  | docs
  | frontend
  | backend
  | testing
deriving DecidableEq, Repr

/-- The string a `WorkflowStep` value denotes. -/
def WorkflowStep.toStr : WorkflowStep → String
  | .planning => "planning"
  | .docs => "docs"
  | .frontend => "frontend"
  | .backend => "backend"
  | .testing => "testing"

/-- Model: `WORKFLOW_STEPS`, the fixed ordered step list. -/
def WORKFLOW_STEPS : List String := ["planning", "docs", "frontend", "backend", "testing"]

/-- The persisted per-chat workflow columns (`workflowStatus`,
`workflowStep`).  The database row is modelled as an explicit state value
threaded through the operations; the step column, being persisted text,
may hold arbitrary strings (`advanceStep` explicitly handles an invalid
value). -/
structure ChatWorkflowState where
  workflowStatus : String
  workflowStep : Option String
deriving DecidableEq, Repr

/-- Model: `startWorkflow`: set `{active, planning}` and return `"planning"`. -/
def WorkflowManager.startWorkflow (_s : ChatWorkflowState) :
    String × ChatWorkflowState :=
  ("planning", { workflowStatus := "active", workflowStep := some "planning" })

/-- Model: `stopWorkflow`: set `{idle, null}`. -/
def WorkflowManager.stopWorkflow (_s : ChatWorkflowState) : ChatWorkflowState :=
  { workflowStatus := "idle", workflowStep := none }

/-- Model: `forceStep`: set `{active, step}` and return the step. -/
def WorkflowManager.forceStep (_s : ChatWorkflowState) (step : WorkflowStep) :
    String × ChatWorkflowState :=
  (step.toStr, { workflowStatus := "active", workflowStep := some step.toStr })

/-- Model: `advanceStep`: warn-and-return-null when not active; reset to planning
when the persisted step is not in `WORKFLOW_STEPS` (`indexOf === -1`,
which also covers a null step); finish (`{idle, null}`, return null) from
the last step; otherwise move to and return the next step. -/
def WorkflowManager.advanceStep (s : ChatWorkflowState) :
    Option String × ChatWorkflowState :=
  if s.workflowStatus ≠ "active" then (none, s)
  else
    match (match s.workflowStep with
           | none => none
           | some st => WORKFLOW_STEPS.findIdx? (fun x => x = st)) with
    | none => (some "planning", { workflowStatus := "active", workflowStep := some "planning" })
    | some i =>
      if i = WORKFLOW_STEPS.length - 1 then
        (none, { workflowStatus := "idle", workflowStep := none })
      else
        let nextStep := WORKFLOW_STEPS.getD (i + 1) ""
        (some nextStep, { s with workflowStep := some nextStep })

/-- The invariant the spec states for the persisted workflow state: the
step is non-null exactly when the status is `"active"`, and a non-null
step is a member of the fixed ordered step list. -/
def WorkflowInvariant (s : ChatWorkflowState) : Prop :=
  (s.workflowStep ≠ none ↔ s.workflowStatus = "active") ∧
  ∀ st, s.workflowStep = some st → st ∈ WORKFLOW_STEPS

/-! ## Orchestrator correction loop (src/unnamed/part_006,
`registerChatStreamHandlers`) -/

/-- Model: `const MAX_CORRECTION_ATTEMPTS = settings.maxCorrectionAttempts || 2`:
JavaScript `||` yields 2 both when the setting is absent and when it is 0
(falsy). -/
def maxCorrectionAttemptsOf (setting : Option Nat) : Nat :=
  match setting with
  | none => 2
  | some n => if n = 0 then 2 else n

/-- The stop-correct-resume `while (true)` loop.  `stream n` abstracts
processing the `n`-th (re)started model stream: it yields the accumulated
response after that stream and whether the monitor aborted it with a
correction request (`abortController.signal.aborted &&
_correctionNeeded`).  When a correction is requested: if the attempt
counter has reached the maximum the loop breaks, surfacing the last
generated response uncorrected; otherwise the correction is appended to
the context, the counter incremented, and the next stream processed.
Without a correction request the loop breaks with the stream's response.
Returns (number of retries performed, final response). -/
def correctionLoopAux (maxAttempts : Nat) (stream : Nat → List Char × Bool) :
    Nat → Nat → Nat → Nat × List Char
  | 0, attempts, n => (attempts, (stream n).1)
  | fuel + 1, attempts, n =>
    let r := stream n
    if r.2 then
      if maxAttempts ≤ attempts then (attempts, r.1)
      else correctionLoopAux maxAttempts stream fuel (attempts + 1) (n + 1)
    else (attempts, r.1)

/-- The wrapper supplying the fuel.  With `fuel = maxAttempts + 1 -
attempts` the worker is extensionally the unbounded loop: the counter
increases by one per iteration, so the `fuel = 0` arm is reached only with
`attempts > maxAttempts`, where the loop returns `(attempts, response)`
on every branch anyway. -/
def correctionLoop (maxAttempts : Nat) (stream : Nat → List Char × Bool)
    (attempts n : Nat) : Nat × List Char :=
  correctionLoopAux maxAttempts stream (maxAttempts + 1 - attempts) attempts n

/-! ## Corrective Agent (src/unnamed/part_002, `corrective_agent`) -/

/-- Model: `CorrectionResult`. -/
structure CorrectionResult where
  shouldRetry : Bool
  prompt : Option (List Char)
  reason : Option (List Char)
deriving DecidableEq, Repr

/-- Model: `String.prototype.trim()` (restricted to the modelled ASCII whitespace
characters). -/
def trimChars (l : List Char) : List Char :=
  ((l.dropWhile isSpaceChar).reverse.dropWhile isSpaceChar).reverse

/-- Model: `reply.match(/<corrective-instruction>([\s\S]*?)<\/corrective-instruction>/)`:
the leftmost match starts at an open delimiter followed (anywhere later)
by a close delimiter.  If the first open delimiter has no close delimiter
after it, no later one has either, so the match — when it exists — starts
at the first open delimiter and captures lazily up to the first close
delimiter after it. -/
def extractCorrectiveInstruction (reply : List Char) : Option (List Char) :=
  match findSubstrIdx (chars "<corrective-instruction>") reply with
  | none => none
  | some i =>
    let afterOpen := reply.drop (i + 24)
    match findSubstrIdx (chars "</corrective-instruction>") afterOpen with
    | none => none
    | some k => some (afterOpen.take k)

/-- Model: `attemptCorrection`, with the whole `try` block (prompt construction,
router client lookup and awaited router stream) abstracted into its
outcome: `.error e` is the `catch` path (any throw), `.ok reply` the
accumulated router reply.  `if (match && match[1])` accepts the match only
when the captured group is a nonempty string (an empty capture is falsy in
JavaScript). -/
def attemptCorrection (routerOutcome : Except (List Char) (List Char)) :
    CorrectionResult :=
  match routerOutcome with
  | .error e =>
    { shouldRetry := false
      prompt := none
      reason := some (chars "Correction failed: " ++ e) }
  | .ok correctiveInstruction =>
    match extractCorrectiveInstruction correctiveInstruction with
    | some cap =>
      if cap.isEmpty then
        { shouldRetry := false
          prompt := none
          reason := some (chars "Could not generate corrective instruction (no tags found)") }
      else
        { shouldRetry := true, prompt := some (trimChars cap), reason := none }
    | none =>
      { shouldRetry := false
        prompt := none
        reason := some (chars "Could not generate corrective instruction (no tags found)") }

/-- Modelled from the spec: "the router model's reply contains the
`<corrective-instruction>...</corrective-instruction>` delimiter pair" —
an open delimiter with a close delimiter somewhere after it.  (Used only
to compare the spec's contract for `attemptCorrection` with the code's
behaviour.) -/
def specContainsDelimiterPair (reply : List Char) : Bool :=
  match findSubstrIdx (chars "<corrective-instruction>") reply with
  | none => false
  | some i => containsSubstr (chars "</corrective-instruction>") (reply.drop (i + 24))

/-- Spec-side auxiliary used only to state the C1 property: the index of
the last position at which the matcher succeeds.  For the open-tag matcher
this is the position of the last opening tag in the text, defined
independently of the `g`-exec scan (which can skip an opening tag nested
inside an earlier match's span). -/
def lastMatchIdx (m : MatcherT α) : List Char → Option Nat
  | [] => if (m []).isSome then some 0 else none
  | c :: t =>
    match lastMatchIdx m t with
    | some i => some (i + 1)
    | none => if (m (c :: t)).isSome then some 0 else none

/-! ## Theorems -/

theorem containsSubstr_cons (pat : List Char) (c : Char) (t : List Char) :
    containsSubstr pat (c :: t) = (pat.isPrefixOf (c :: t) || containsSubstr pat t) := rfl

/-- A substring of a suffix is a substring. -/
theorem containsSubstr_drop (pat : List Char) :
    ∀ (i : Nat) (s : List Char),
      containsSubstr pat (s.drop i) = true → containsSubstr pat s = true := by
  intro i
  induction i with
  | zero => intro s h; simpa using h
  | succ n ih =>
    intro s h
    cases s with
    | nil => simpa using h
    | cons c t =>
      rw [containsSubstr_cons]
      have ht : containsSubstr pat t = true := ih t (by simpa using h)
      simp [ht]

/-- C1 (corrected), counterexample to the claim as stated: a text whose
first opening dyad-write tag is unmatched while its second opening tag is
properly closed.  `hasUnclosedDyadWrite` only looks for a closing tag
after the last opening tag, so it returns `false` here even though the
text has two opening tags and only one closing tag. -/
theorem hasUnclosedDyadWrite_last_open_closed_counterexample :
    hasUnclosedDyadWrite
      (chars "<dyad-write path=\"a\"><dyad-write path=\"b\">x</dyad-write>") = false ∧
    (gExecAll (openTagMatcher (chars "<dyad-write"))
      (chars "<dyad-write path=\"a\"><dyad-write path=\"b\">x</dyad-write>")).length = 2 ∧
    (gExecAll (litMatcher (chars "</dyad-write>"))
      (chars "<dyad-write path=\"a\"><dyad-write path=\"b\">x</dyad-write>")).length = 1 := by
  decide

theorem firstMatchFrom_some_match {α : Type} (m : MatcherT α) :
    ∀ (s : List Char) (i : Nat) (a : α) (len : Nat),
      firstMatchFrom m s = some (i, a, len) → m (s.drop i) = some (a, len) := by
  intro s
  induction s with
  | nil =>
    intro i a len h
    simp only [firstMatchFrom] at h
    obtain ⟨⟨a0, len0⟩, hm, heq⟩ := Option.map_eq_some'.mp h
    simp only [Prod.mk.injEq] at heq
    obtain ⟨h0, h1, h2⟩ := heq
    subst h0
    rw [← h1, ← h2]
    simpa using hm
  | cons c t ih =>
    intro i a len h
    cases hm : m (c :: t) with
    | some v =>
      obtain ⟨b, len0⟩ := v
      simp only [firstMatchFrom, hm, Option.some.injEq, Prod.mk.injEq] at h
      obtain ⟨h0, h1, h2⟩ := h
      subst h0
      rw [List.drop_zero, ← h1, ← h2]
      exact hm
    | none =>
      simp only [firstMatchFrom, hm] at h
      obtain ⟨⟨i0, a0, len0⟩, hf, heq⟩ := Option.map_eq_some'.mp h
      simp only [Prod.mk.injEq] at heq
      obtain ⟨h0, h1, h2⟩ := heq
      subst h0
      rw [List.drop_succ_cons, ← h1, ← h2]
      exact ih i0 a0 len0 hf

theorem firstMatchFrom_none_match {α : Type} (m : MatcherT α) :
    ∀ s : List Char, firstMatchFrom m s = none → ∀ p : Nat, m (s.drop p) = none := by
  intro s
  induction s with
  | nil =>
    intro h p
    simp only [firstMatchFrom, Option.map_eq_none'] at h
    simpa using h
  | cons c t ih =>
    intro h p
    cases hm : m (c :: t) with
    | some v => simp [firstMatchFrom, hm] at h
    | none =>
      simp only [firstMatchFrom, hm, Option.map_eq_none'] at h
      cases p with
      | zero => simpa using hm
      | succ p0 =>
        rw [List.drop_succ_cons]
        exact ih h p0

/-- An empty `g`-exec result means the matcher fails on every suffix. -/
theorem gExecAllAux_nil_no_match {α : Type} (m : MatcherT α) (hm0 : m [] = none) :
    ∀ (fuel : Nat) (s : List Char), s.length ≤ fuel →
      gExecAllAux m fuel s = [] → ∀ p, m (s.drop p) = none := by
  intro fuel s hs h p
  cases fuel with
  | zero =>
    have hnil : s = [] := List.eq_nil_of_length_eq_zero (Nat.le_zero.mp hs)
    subst hnil
    simpa using hm0
  | succ fuel =>
    cases hf : firstMatchFrom m s with
    | some r =>
      obtain ⟨i, a, len⟩ := r
      simp [gExecAllAux, hf] at h
    | none => exact firstMatchFrom_none_match m s hf p

theorem getLast?_cons_of_ne_nil {α : Type} (x : α) {l : List α} (h : l ≠ []) :
    (x :: l).getLast? = l.getLast? := by
  cases l with
  | nil => exact absurd rfl h
  | cons y l0 => exact List.getLast?_cons_cons

/-- The last `g`-exec match: the matcher succeeds at its index, and fails
at every position at or beyond its end. -/
theorem gExecAllAux_last {α : Type} (m : MatcherT α) (hm0 : m [] = none)
    (hm1 : ∀ x a len, m x = some (a, len) → 1 ≤ len) :
    ∀ (fuel : Nat) (s : List Char), s.length ≤ fuel →
      ∀ (j : Nat) (a : α), (gExecAllAux m fuel s).getLast? = some (j, a) →
        ∃ len, m (s.drop j) = some (a, len) ∧
          ∀ p, j + len ≤ p → m (s.drop p) = none := by
  intro fuel
  induction fuel with
  | zero => intro s hs j a h; simp [gExecAllAux] at h
  | succ fuel ih =>
    intro s hs j a hlast
    cases hf : firstMatchFrom m s with
    | none => simp [gExecAllAux, hf] at hlast
    | some r =>
      obtain ⟨i, b, len0⟩ := r
      have hmi : m (s.drop i) = some (b, len0) := firstMatchFrom_some_match m s i b len0 hf
      have hl1 : 1 ≤ len0 := hm1 _ _ _ hmi
      have hmax : len0.max 1 = len0 := Nat.max_eq_left hl1
      have hunf : gExecAllAux m (fuel + 1) s =
          (i, b) :: (gExecAllAux m fuel (s.drop (i + len0))).map
            (fun r => (r.1 + (i + len0), r.2)) := by
        simp [gExecAllAux, hf, hmax]
      rw [hunf] at hlast
      cases hrest : gExecAllAux m fuel (s.drop (i + len0)) with
      | nil =>
        rw [hrest] at hlast
        simp only [List.map_nil, List.getLast?_singleton, Option.some.injEq,
          Prod.mk.injEq] at hlast
        obtain ⟨hij, hba⟩ := hlast
        refine ⟨len0, by rw [← hij, ← hba]; exact hmi, ?_⟩
        intro p hp
        have hb : (s.drop (i + len0)).length ≤ fuel := by
          simp only [List.length_drop]
          omega
        have hq := gExecAllAux_nil_no_match m hm0 fuel (s.drop (i + len0)) hb hrest
          (p - (i + len0))
        rw [List.drop_drop] at hq
        have harith : (i + len0) + (p - (i + len0)) = p := by omega
        rwa [harith] at hq
      | cons r0 rs =>
        rw [hrest] at hlast
        rw [getLast?_cons_of_ne_nil _ (by simp), List.getLast?_map] at hlast
        obtain ⟨⟨j0, a0⟩, hj0, hfa⟩ := Option.map_eq_some'.mp hlast
        simp only [Prod.mk.injEq] at hfa
        obtain ⟨hj1, ha1⟩ := hfa
        have hb : (s.drop (i + len0)).length ≤ fuel := by
          simp only [List.length_drop]
          omega
        have hj0x : (gExecAllAux m fuel (s.drop (i + len0))).getLast? = some (j0, a0) := by
          rw [hrest]
          exact hj0
        obtain ⟨len1, hm1x, haf1⟩ := ih (s.drop (i + len0)) hb j0 a0 hj0x
        rw [List.drop_drop] at hm1x
        refine ⟨len1, ?_, ?_⟩
        · have harith : (i + len0) + j0 = j := by omega
          rw [harith] at hm1x
          rwa [ha1] at hm1x
        · intro p hp
          have hple : j0 + len1 ≤ p - (i + len0) := by omega
          have hq := haf1 (p - (i + len0)) hple
          rw [List.drop_drop] at hq
          have harith : (i + len0) + (p - (i + len0)) = p := by omega
          rwa [harith] at hq

theorem gExecAll_last {α : Type} (m : MatcherT α) (hm0 : m [] = none)
    (hm1 : ∀ x a len, m x = some (a, len) → 1 ≤ len)
    (s : List Char) (j : Nat) (a : α)
    (h : (gExecAll m s).getLast? = some (j, a)) :
    ∃ len, m (s.drop j) = some (a, len) ∧
      ∀ p, j + len ≤ p → m (s.drop p) = none :=
  gExecAllAux_last m hm0 hm1 s.length s (Nat.le_refl _) j a h

theorem lastMatchIdx_none {α : Type} (m : MatcherT α) (hm0 : m [] = none) :
    ∀ s : List Char, lastMatchIdx m s = none → ∀ p, m (s.drop p) = none := by
  intro s
  induction s with
  | nil => intro _ p; simpa using hm0
  | cons c t ih =>
    intro h p
    cases hin : lastMatchIdx m t with
    | some i => simp [lastMatchIdx, hin] at h
    | none =>
      simp only [lastMatchIdx, hin] at h
      cases p with
      | zero =>
        by_cases hm : (m (c :: t)).isSome
        · rw [if_pos hm] at h
          exact Option.noConfusion h
        · simpa using Option.not_isSome_iff_eq_none.mp hm
      | succ p0 =>
        rw [List.drop_succ_cons]
        exact ih hin p0

/-- Specification of `lastMatchIdx`: the matcher succeeds at the returned
index and fails at every later position. -/
theorem lastMatchIdx_spec {α : Type} (m : MatcherT α) (hm0 : m [] = none) :
    ∀ (s : List Char) (i : Nat), lastMatchIdx m s = some i →
      (m (s.drop i)).isSome = true ∧ ∀ p, i < p → m (s.drop p) = none := by
  intro s
  induction s with
  | nil =>
    intro i h
    simp only [lastMatchIdx, hm0] at h
    simp at h
  | cons c t ih =>
    intro i h
    cases hin : lastMatchIdx m t with
    | some i0 =>
      simp only [lastMatchIdx, hin, Option.some.injEq] at h
      subst h
      obtain ⟨h1, h2⟩ := ih i0 hin
      refine ⟨by simpa using h1, ?_⟩
      intro p hp
      cases p with
      | zero => omega
      | succ p0 =>
        rw [List.drop_succ_cons]
        exact h2 p0 (by omega)
    | none =>
      simp only [lastMatchIdx, hin] at h
      by_cases hm : (m (c :: t)).isSome
      · rw [if_pos hm] at h
        have hi : i = 0 := (Option.some.inj h).symm
        subst hi
        refine ⟨by simpa using hm, ?_⟩
        intro p hp
        cases p with
        | zero => omega
        | succ p0 =>
          rw [List.drop_succ_cons]
          exact lastMatchIdx_none m hm0 t hin p0
      · rw [if_neg hm] at h
        exact Option.noConfusion h

/-- A prefix determines the indexed characters. -/
theorem prefix_getElem? : ∀ (w l : List Char), w.isPrefixOf l = true →
    ∀ (off : Nat) (c : Char), w[off]? = some c → l[off]? = some c := by
  intro w
  induction w with
  | nil => intro l _ off c h; simp at h
  | cons a w ih =>
    intro l hp off c h
    cases l with
    | nil => simp at hp
    | cons b t =>
      rw [List.isPrefixOf_cons₂] at hp
      simp only [Bool.and_eq_true, beq_iff_eq] at hp
      obtain ⟨hab, hw⟩ := hp
      cases off with
      | zero =>
        simp only [List.getElem?_cons_zero, Option.some.injEq] at h ⊢
        rw [← hab]
        exact h
      | succ off0 =>
        simp only [List.getElem?_cons_succ] at h ⊢
        exact ih t hw off0 c h

theorem containsSubstr_of_isPrefixOf (w x : List Char) (h : w.isPrefixOf x = true) :
    containsSubstr w x = true := by
  cases x with
  | nil =>
    cases w with
    | nil => rfl
    | cons a w0 => simp at h
  | cons c t =>
    rw [containsSubstr_cons]
    simp [h]

theorem containsSubstr_of_prefix_drop (w s : List Char) (r : Nat)
    (h : w.isPrefixOf (s.drop r) = true) : containsSubstr w s = true :=
  containsSubstr_drop w r s (containsSubstr_of_isPrefixOf w (s.drop r) h)

theorem containsSubstr_exists_drop (w : List Char) :
    ∀ s : List Char, containsSubstr w s = true →
      ∃ r, w.isPrefixOf (s.drop r) = true := by
  intro s
  induction s with
  | nil =>
    intro h
    refine ⟨0, ?_⟩
    cases w with
    | nil => rfl
    | cons a w0 => simp [containsSubstr] at h
  | cons c t ih =>
    intro h
    rw [containsSubstr_cons] at h
    simp only [Bool.or_eq_true] at h
    rcases h with h | h
    · exact ⟨0, by simpa using h⟩
    · obtain ⟨r, hr⟩ := ih h
      exact ⟨r + 1, by simpa using hr⟩

/-- Specification of `List.findIdx?` (from start index 0): the element at
the returned index satisfies the predicate and no earlier one does. -/
theorem findIdx?_zero_spec (p : Char → Bool) :
    ∀ (l : List Char) (k : Nat), List.findIdx? p l = some k →
      (∃ c, l[k]? = some c ∧ p c = true) ∧
      (∀ q, q < k → ∀ c, l[q]? = some c → p c = false) := by
  intro l
  induction l with
  | nil => intro k h; simp at h
  | cons x xs ih =>
    intro k h
    rw [List.findIdx?_cons] at h
    by_cases hx : p x = true
    · rw [if_pos hx] at h
      have hk : k = 0 := (Option.some.inj h).symm
      subst hk
      exact ⟨⟨x, by simp, hx⟩, fun q hq => absurd hq (by omega)⟩
    · rw [if_neg hx] at h
      rw [List.findIdx?_succ] at h
      obtain ⟨k0, hk0, hkk⟩ := Option.map_eq_some'.mp h
      subst hkk
      obtain ⟨⟨c, hc, hpc⟩, hmin⟩ := ih k0 hk0
      refine ⟨⟨c, by simpa using hc, hpc⟩, ?_⟩
      intro q hq d hd
      cases q with
      | zero =>
        rw [List.getElem?_cons_zero] at hd
        have hdx : d = x := (Option.some.inj hd).symm
        subst hdx
        cases hpx : p d with
        | false => rfl
        | true => exact absurd hpx hx
      | succ q0 =>
        rw [List.getElem?_cons_succ] at hd
        exact hmin q0 (by omega) d hd

/-- Structure of an open-tag match: the literal is a prefix and the match
extends through the first `>` after it. -/
theorem openTagMatcher_span (lit : List Char) :
    ∀ (x : List Char) (a : Unit) (len : Nat), openTagMatcher lit x = some (a, len) →
      lit.isPrefixOf x = true ∧
      ∃ k, List.findIdx? (fun c => c = '>') (x.drop lit.length) = some k ∧
        len = lit.length + k + 1 := by
  intro x a len h
  unfold openTagMatcher at h
  by_cases hp : lit.isPrefixOf x = true
  · rw [if_pos hp] at h
    cases hk : List.findIdx? (fun c => c = '>') (x.drop lit.length) with
    | none => rw [hk] at h; exact Option.noConfusion h
    | some k =>
      rw [hk] at h
      have heq := Option.some.inj h
      have hlen := congrArg Prod.snd heq
      exact ⟨hp, k, rfl, hlen.symm⟩
  · rw [if_neg hp] at h
    exact Option.noConfusion h

theorem openTagMatcher_len_pos (lit : List Char) (x : List Char) (a : Unit) (len : Nat)
    (h : openTagMatcher lit x = some (a, len)) : 1 ≤ len := by
  obtain ⟨-, k, -, hlen⟩ := openTagMatcher_span lit x a len h
  omega

/-- C1 (amended): for every text that contains an opening dyad-write tag
and contains no closing dyad-write tag after the last opening tag (the
last position at which the open-tag pattern `<dyad-write[^>]*>` matches),
`hasUnclosedDyadWrite` returns `true`.  In particular a properly closed
write followed by an unterminated one — the continuation-trigger case —
is covered. -/
theorem hasUnclosedDyadWrite_of_open_and_no_close :
    ∀ (text : List Char) (i : Nat),
      lastMatchIdx (openTagMatcher (chars "<dyad-write")) text = some i →
      containsSubstr (chars "</dyad-write>") (text.drop i) = false →
      hasUnclosedDyadWrite text = true := by
  intro text i hlast hnoclose
  have hm0 : openTagMatcher (chars "<dyad-write") [] = none := by decide
  have hm1 : ∀ x a len, openTagMatcher (chars "<dyad-write") x = some (a, len) → 1 ≤ len :=
    fun x a len h => openTagMatcher_len_pos _ x a len h
  have hlit : (chars "<dyad-write").length = 11 := by decide
  obtain ⟨hiS, himax⟩ := lastMatchIdx_spec _ hm0 text i hlast
  -- the g-exec match list is nonempty
  have hne : gExecAll (openTagMatcher (chars "<dyad-write")) text ≠ [] := by
    intro hnil
    have hall := gExecAllAux_nil_no_match _ hm0 text.length text (Nat.le_refl _) hnil i
    rw [hall] at hiS
    simp at hiS
  obtain ⟨⟨j, a⟩, hjlast⟩ := Option.isSome_iff_exists.mp (List.getLast?_isSome.mpr hne)
  obtain ⟨len, hmj, hafter⟩ := gExecAll_last _ hm0 hm1 text j a hjlast
  -- the last g-exec match starts at or before the last opening tag
  have hji : j ≤ i := by
    by_contra hc
    push_neg at hc
    have := himax j hc
    rw [this] at hmj
    exact Option.noConfusion hmj
  -- and the last opening tag lies inside its span
  have hilt : i < j + len := by
    by_contra hc
    push_neg at hc
    have := hafter i hc
    rw [this] at hiS
    simp at hiS
  obtain ⟨hprej, k, hk, hlen⟩ := openTagMatcher_span _ _ _ _ hmj
  -- no closing tag occurs at or after the last g-exec match index
  have hclosej : containsSubstr (chars "</dyad-write>") (text.drop j) = false := by
    cases hcj : containsSubstr (chars "</dyad-write>") (text.drop j) with
    | false => rfl
    | true =>
      exfalso
      obtain ⟨r, hr⟩ := containsSubstr_exists_drop _ _ hcj
      rw [List.drop_drop] at hr
      -- a closing tag occurs at absolute position p = j + r
      by_cases hpi : i ≤ j + r
      · -- then it occurs at or after the last opening tag: contradiction
        have hone : containsSubstr (chars "</dyad-write>") (text.drop i) = true := by
          apply containsSubstr_of_prefix_drop _ _ (j + r - i)
          rw [List.drop_drop]
          have harith : i + (j + r - i) = j + r := by omega
          rw [harith]
          exact hr
        rw [hnoclose] at hone
        exact Bool.noConfusion hone
      · push_neg at hpi
        -- close-prefix characters
        have hcp : ∀ (d : Nat) (c : Char), (chars "</dyad-write>")[d]? = some c →
            text[j + r + d]? = some c := by
          intro d c hd
          have := prefix_getElem? _ _ hr d c hd
          rwa [List.getElem?_drop] at this
        -- span characters
        obtain ⟨⟨cg, hcg, hcgp⟩, hkmin⟩ := findIdx?_zero_spec _ _ _ hk
        have hcg' : cg = '>' := by simpa using hcgp
        have hgt : text[j + (11 + k)]? = some '>' := by
          rw [hcg'] at hcg
          rw [List.getElem?_drop, List.getElem?_drop, hlit] at hcg
          exact hcg
        have hymin : ∀ q, q < k → text[j + (11 + q)]? ≠ some '>' := by
          intro q hq hcontra
          have hyq : ((text.drop j).drop (chars "<dyad-write").length)[q]? = some '>' := by
            rw [List.getElem?_drop, List.getElem?_drop, hlit]
            exact hcontra
          have := hkmin q hq '>' hyq
          simp at this
        have hlen' : len = 12 + k := by
          rw [hlit] at hlen
          omega
        have hsome : ∀ off, off < 13 → ((chars "</dyad-write>")[off]?).isSome = true := by
          decide
        have hno_gt : ∀ off, off < 12 → (chars "</dyad-write>")[off]? ≠ some '>' := by
          decide
        have hno_lt : ∀ off, 1 ≤ off → off ≤ 12 →
            (chars "</dyad-write>")[off]? ≠ some '<' := by
          decide
        have h12 : text[j + r + 12]? = some '>' := hcp 12 '>' (by decide)
        rcases Nat.lt_trichotomy (j + (11 + k)) (j + r + 12) with hlt | heq | hgt2
        · -- the span's closing `>` would sit inside the closing tag's first
          -- 12 characters
          have hoff1 : 1 ≤ j + (11 + k) - (j + r) := by omega
          have hoff2 : j + (11 + k) - (j + r) < 12 := by omega
          obtain ⟨c, hc⟩ := Option.isSome_iff_exists.mp
            (hsome (j + (11 + k) - (j + r)) (by omega))
          have htc := hcp _ c hc
          have harith : j + r + (j + (11 + k) - (j + r)) = j + (11 + k) := by omega
          rw [harith, hgt] at htc
          have : c = '>' := (Option.some.inj htc).symm
          rw [this] at hc
          exact hno_gt _ hoff2 hc
        · -- the closing tag would end exactly at the span's `>`, but then
          -- the last opening tag would start inside the closing tag's text
          obtain ⟨⟨a0, len0⟩, hmi⟩ := Option.isSome_iff_exists.mp hiS
          obtain ⟨hprei, k0, hk0, hlen0⟩ := openTagMatcher_span _ _ _ _ hmi
          have hti : text[i]? = some '<' := by
            have := prefix_getElem? _ _ hprei 0 '<' (by decide)
            rwa [List.getElem?_drop, Nat.add_zero] at this
          have hd1 : 1 ≤ i - (j + r) := by omega
          have hd2 : i - (j + r) ≤ 12 := by omega
          obtain ⟨c, hc⟩ := Option.isSome_iff_exists.mp (hsome (i - (j + r)) (by omega))
          have htc := hcp _ c hc
          have harith : j + r + (i - (j + r)) = i := by omega
          rw [harith, hti] at htc
          have : c = '<' := (Option.some.inj htc).symm
          rw [this] at hc
          exact hno_lt _ hd1 hd2 hc
        · -- the closing tag's `>` would sit strictly inside the span's
          -- non-`>` attribute region
          have hq1 : j + r + 12 - (j + 11) < k := by omega
          apply hymin (j + r + 12 - (j + 11)) hq1
          have harith : j + (11 + (j + r + 12 - (j + 11))) = j + r + 12 := by omega
          rw [harith]
          exact h12
  -- conclude
  have hopens : ((gExecAll (openTagMatcher (chars "<dyad-write")) text).map
      (fun r => r.1)).getLast? = some j := by
    rw [List.getLast?_map, hjlast]
    rfl
  unfold hasUnclosedDyadWrite
  simp only [hopens, hclosej]
  rfl

/-- Closed witness for the amended C1 theorem: a properly closed write
directive followed by an unterminated one. -/
theorem hasUnclosedDyadWrite_of_open_and_no_close_witness :
    hasUnclosedDyadWrite
      (chars "<dyad-write path=\"a\">x</dyad-write><dyad-write path=\"b\">partial") = true :=
  hasUnclosedDyadWrite_of_open_and_no_close
    (chars "<dyad-write path=\"a\">x</dyad-write><dyad-write path=\"b\">partial") 35
    (by decide) (by decide)

/-- C3: starting from an idle workflow state, `startWorkflow` yields
`{active, planning}`, and the five successive `advanceStep` calls return
`docs`, `frontend`, `backend`, `testing` and `null` in order, ending in
`{idle, null}` after the fifth call. -/
theorem workflow_scenario_start_advance_five :
    WorkflowManager.startWorkflow ⟨"idle", none⟩ =
      ("planning", ⟨"active", some "planning"⟩) ∧
    WorkflowManager.advanceStep ⟨"active", some "planning"⟩ =
      (some "docs", ⟨"active", some "docs"⟩) ∧
    WorkflowManager.advanceStep ⟨"active", some "docs"⟩ =
      (some "frontend", ⟨"active", some "frontend"⟩) ∧
    WorkflowManager.advanceStep ⟨"active", some "frontend"⟩ =
      (some "backend", ⟨"active", some "backend"⟩) ∧
    WorkflowManager.advanceStep ⟨"active", some "backend"⟩ =
      (some "testing", ⟨"active", some "testing"⟩) ∧
    WorkflowManager.advanceStep ⟨"active", some "testing"⟩ =
      (none, ⟨"idle", none⟩) := by
  decide

/-- C6: on the text `"Here is the fix:\n```ts\nconst x = 1;\n```"` the
validator's markdown check returns exactly one critical `code_block`
violation, the whole-response validator returns exactly that violation and
rejects the response, and a fresh Fast Monitor's first `checkChunk` on the
text reports `markdown_code_block` with `shouldAbort: true`. -/
theorem end_to_end_markdown_block_scenario :
    ((detectMarkdownCodeBlocks (chars "Here is the fix:\n```ts\nconst x = 1;\n```")).map
        (fun v => (v.type, v.severity)) =
      [(ViolationType.code_block, Severity.critical)]) ∧
    ((validateResponse (chars "Here is the fix:\n```ts\nconst x = 1;\n```")
        ⟨"build", none, none⟩).violations.map (fun v => (v.type, v.severity)) =
      [(ViolationType.code_block, Severity.critical)]) ∧
    (validateResponse (chars "Here is the fix:\n```ts\nconst x = 1;\n```")
        ⟨"build", none, none⟩).isValid = false ∧
    (FastMonitor.checkChunk (FastMonitor.create "build" none)
        (chars "Here is the fix:\n```ts\nconst x = 1;\n```")).1.hasViolation = true ∧
    (FastMonitor.checkChunk (FastMonitor.create "build" none)
        (chars "Here is the fix:\n```ts\nconst x = 1;\n```")).1.violationType =
      some "markdown_code_block" ∧
    (FastMonitor.checkChunk (FastMonitor.create "build" none)
        (chars "Here is the fix:\n```ts\nconst x = 1;\n```")).1.shouldAbort = some true := by
  decide

theorem countReports_cons (k : String) (r : ViolationResult) (rs : List ViolationResult) :
    countReports k (r :: rs) =
      (if r.violationType = some k then 1 else 0) + countReports k rs := by
  by_cases h : r.violationType = some k <;>
    simp [countReports, List.filter_cons, h, Nat.add_comm]

/-- A kind already in the Fast Monitor's seen-set is never reported. -/
theorem fm_checkChunk_not_reported_of_seen (st : FastMonitor) (t : List Char) (k : String)
    (h : st.detectedViolations.contains k = true) :
    (FastMonitor.checkChunk st t).1.violationType ≠ some k := by
  unfold FastMonitor.checkChunk FastMonitor.checkModeViolations
  split_ifs <;> simp_all [noViolation] <;>
    (rename_i hc; exact fun heq => hc.2 (by rw [heq]; exact h))

/-- Model: `checkChunk` never removes a kind from the seen-set. -/
theorem fm_checkChunk_seen_mono (st : FastMonitor) (t : List Char) (k : String)
    (h : st.detectedViolations.contains k = true) :
    ((FastMonitor.checkChunk st t).2).detectedViolations.contains k = true := by
  unfold FastMonitor.checkChunk FastMonitor.checkModeViolations
  split_ifs <;> simp_all [List.contains_cons]

/-- A reported kind was not in the seen-set before the call and is in it
afterwards. -/
theorem fm_checkChunk_reported (st : FastMonitor) (t : List Char) (k : String)
    (h : (FastMonitor.checkChunk st t).1.violationType = some k) :
    st.detectedViolations.contains k = false ∧
    ((FastMonitor.checkChunk st t).2).detectedViolations.contains k = true := by
  unfold FastMonitor.checkChunk FastMonitor.checkModeViolations at h ⊢
  split_ifs at h ⊢ <;> simp_all [noViolation, List.contains_cons]

/-- Once a kind is in the seen-set, no later call of the run reports it. -/
theorem fm_run_count_zero_of_seen (k : String) :
    ∀ (ts : List (List Char)) (st : FastMonitor),
      st.detectedViolations.contains k = true →
      countReports k (FastMonitor.run st ts) = 0 := by
  intro ts
  induction ts with
  | nil => intro st _; rfl
  | cons t ts ih =>
    intro st h
    simp only [FastMonitor.run]
    rw [countReports_cons]
    have h1 := fm_checkChunk_not_reported_of_seen st t k h
    have h2 := fm_checkChunk_seen_mono st t k h
    simp [h1, ih _ h2]

/-- Over any run of one Fast Monitor instance, each kind is reported at
most once. -/
theorem fm_run_count_le_one (k : String) :
    ∀ (ts : List (List Char)) (st : FastMonitor),
      countReports k (FastMonitor.run st ts) ≤ 1 := by
  intro ts
  induction ts with
  | nil => intro st; simp [FastMonitor.run, countReports]
  | cons t ts ih =>
    intro st
    simp only [FastMonitor.run]
    rw [countReports_cons]
    by_cases h : (FastMonitor.checkChunk st t).1.violationType = some k
    · have hseen := (fm_checkChunk_reported st t k h).2
      have hz := fm_run_count_zero_of_seen k ts _ hseen
      simp [h, hz]
    · simpa [h] using ih _

theorem countAnalyses_cons (k : String) (r : MonitorAnalysis) (rs : List MonitorAnalysis) :
    countAnalyses k (r :: rs) =
      (if r.violationType = some k then 1 else 0) + countAnalyses k rs := by
  by_cases h : r.violationType = some k <;>
    simp [countAnalyses, List.filter_cons, h, Nat.add_comm]

/-- A kind already in the Streaming Monitor's seen-set is never reported. -/
theorem sm_analyzeChunk_not_reported_of_seen (gen : ViolationDetection → Option String)
    (st : StreamingMonitor) (t : List Char) (k : String)
    (h : st.violationsDetected.contains k = true) :
    (StreamingMonitor.analyzeChunk gen st t).1.violationType ≠ some k := by
  unfold StreamingMonitor.analyzeChunk
  simp only []
  split
  · rename_i v hf
    have hp := List.find?_some hf
    intro heq
    have hk : v.type = k := by simpa using heq
    simp only [hk] at hp
    simp at h
    simp [h] at hp
  · simp

/-- Model: `analyzeChunk` never removes a kind from the seen-set. -/
theorem sm_analyzeChunk_seen_mono (gen : ViolationDetection → Option String)
    (st : StreamingMonitor) (t : List Char) (k : String)
    (h : st.violationsDetected.contains k = true) :
    ((StreamingMonitor.analyzeChunk gen st t).2).violationsDetected.contains k = true := by
  unfold StreamingMonitor.analyzeChunk
  simp only []
  split
  · rename_i v hf
    simp at h ⊢
    simp [h]
  · simpa using h

/-- A reported kind was not in the seen-set before the call and is in it
afterwards. -/
theorem sm_analyzeChunk_reported (gen : ViolationDetection → Option String)
    (st : StreamingMonitor) (t : List Char) (k : String)
    (h : (StreamingMonitor.analyzeChunk gen st t).1.violationType = some k) :
    st.violationsDetected.contains k = false ∧
    ((StreamingMonitor.analyzeChunk gen st t).2).violationsDetected.contains k = true := by
  unfold StreamingMonitor.analyzeChunk at h ⊢
  simp only [] at h ⊢
  split at h
  · rename_i v hf
    have hp := List.find?_some hf
    have hk : v.type = k := by simpa using h
    rw [hk] at hp
    constructor
    · simpa using hp
    · simp [List.contains_cons, hk]
  · simp at h

/-- Once a kind is in the seen-set, no later call of the run reports it. -/
theorem sm_run_count_zero_of_seen (gen : ViolationDetection → Option String) (k : String) :
    ∀ (ts : List (List Char)) (st : StreamingMonitor),
      st.violationsDetected.contains k = true →
      countAnalyses k (StreamingMonitor.run gen st ts) = 0 := by
  intro ts
  induction ts with
  | nil => intro st _; rfl
  | cons t ts ih =>
    intro st h
    simp only [StreamingMonitor.run]
    rw [countAnalyses_cons]
    have h1 := sm_analyzeChunk_not_reported_of_seen gen st t k h
    have h2 := sm_analyzeChunk_seen_mono gen st t k h
    simp [h1, ih _ h2]

/-- Over any run of one Streaming Monitor instance, each kind is reported
at most once. -/
theorem sm_run_count_le_one (gen : ViolationDetection → Option String) (k : String) :
    ∀ (ts : List (List Char)) (st : StreamingMonitor),
      countAnalyses k (StreamingMonitor.run gen st ts) ≤ 1 := by
  intro ts
  induction ts with
  | nil => intro st; simp [StreamingMonitor.run, countAnalyses]
  | cons t ts ih =>
    intro st
    simp only [StreamingMonitor.run]
    rw [countAnalyses_cons]
    by_cases h : (StreamingMonitor.analyzeChunk gen st t).1.violationType = some k
    · have hseen := (sm_analyzeChunk_reported gen st t k h).2
      have hz := sm_run_count_zero_of_seen gen k ts _ hseen
      simp [h, hz]
    · simpa [h] using ih _

/-- C2 (corrected), counterexample to the claim as stated: a one-element
(trivially strictly growing) prefix sequence whose text contains the
`codex_cli_tool` violation kind (the Fast Monitor's own detector fires on
it), yet the run reports that kind zero times — the `markdown_code_block`
check earlier in the chain wins the only call — contradicting "exactly
once". -/
theorem monitor_dedup_preempted_kind_counterexample :
    FastMonitor.detectCodexCliTool (chars "```ts\napply_patch\n") = true ∧
    countReports "codex_cli_tool"
      (FastMonitor.run (FastMonitor.create "build" none) [chars "```ts\napply_patch\n"]) = 0 ∧
    (FastMonitor.run (FastMonitor.create "build" none)
      [chars "```ts\napply_patch\n"]).map (fun r => r.violationType) =
      [some "markdown_code_block"] := by
  decide

/-- C2 (amended): over the lifetime of a single Fast Monitor or Streaming
Monitor instance, each violation kind is reported as a new violation at
most once; a kind already in the seen-set is never reported again by any
later call, until `reset()` clears the seen-set. -/
theorem monitor_dedup_at_most_once :
    (∀ (mode : String) (ws : Option String) (texts : List (List Char)) (k : String),
      countReports k (FastMonitor.run (FastMonitor.create mode ws) texts) ≤ 1) ∧
    (∀ (st : FastMonitor) (t : List Char) (k : String),
      st.detectedViolations.contains k = true →
      (FastMonitor.checkChunk st t).1.violationType ≠ some k) ∧
    (∀ st : FastMonitor, (FastMonitor.reset st).detectedViolations = []) ∧
    (∀ (gen : ViolationDetection → Option String) (mode : String) (ws : Option String)
        (chunks : List (List Char)) (k : String),
      countAnalyses k (StreamingMonitor.run gen (StreamingMonitor.create mode ws) chunks) ≤ 1) ∧
    (∀ (gen : ViolationDetection → Option String) (st : StreamingMonitor) (t : List Char)
        (k : String),
      st.violationsDetected.contains k = true →
      (StreamingMonitor.analyzeChunk gen st t).1.violationType ≠ some k) ∧
    (∀ st : StreamingMonitor, (StreamingMonitor.reset st).violationsDetected = []) := by
  refine ⟨?_, ?_, ?_, ?_, ?_, ?_⟩
  · intro mode ws texts k
    exact fm_run_count_le_one k texts _
  · intro st t k h
    exact fm_checkChunk_not_reported_of_seen st t k h
  · intro st
    rfl
  · intro gen mode ws chunks k
    exact sm_run_count_le_one gen k chunks _
  · intro gen st t k h
    exact sm_analyzeChunk_not_reported_of_seen gen st t k h
  · intro st
    rfl

/-- Closed witness for the amended C2 theorem: a monitor that has already
seen the markdown kind does not report it again on a text that still
contains a fence. -/
theorem monitor_dedup_at_most_once_witness :
    (FastMonitor.checkChunk ⟨"build", none, ["markdown_code_block"]⟩
      (chars "```ts\nlet y = 2;\n")).1.violationType ≠ some "markdown_code_block" :=
  monitor_dedup_at_most_once.2.1 ⟨"build", none, ["markdown_code_block"]⟩
    (chars "```ts\nlet y = 2;\n") "markdown_code_block" (by decide)

theorem workflowInvariant_active (x : String) (hx : x ∈ WORKFLOW_STEPS) :
    WorkflowInvariant ⟨"active", some x⟩ := by
  constructor
  · simp
  · intro st h
    have hxst : x = st := by simpa using h
    rwa [← hxst]

theorem workflowInvariant_idle : WorkflowInvariant ⟨"idle", none⟩ := by
  constructor
  · simp
  · intro st h
    simp at h

/-- C4: every Workflow Manager operation preserves the state invariant:
the persisted step is non-null iff the persisted status is `"active"`, and
a non-null step is a member of the fixed ordered step list. -/
theorem workflow_operations_preserve_invariant :
    ∀ (s : ChatWorkflowState) (step : WorkflowStep),
      WorkflowInvariant s →
      WorkflowInvariant (WorkflowManager.startWorkflow s).2 ∧
      WorkflowInvariant (WorkflowManager.advanceStep s).2 ∧
      WorkflowInvariant (WorkflowManager.forceStep s step).2 ∧
      WorkflowInvariant (WorkflowManager.stopWorkflow s) := by
  intro s step hInv
  refine ⟨?_, ?_, ?_, ?_⟩
  · exact workflowInvariant_active "planning" (by decide)
  · obtain ⟨status, stepOpt⟩ := s
    by_cases hact : status = "active"
    · subst hact
      have hne : stepOpt ≠ none := hInv.1.mpr rfl
      obtain ⟨st, hst⟩ := Option.ne_none_iff_exists'.mp hne
      subst hst
      have hmem := hInv.2 st rfl
      have hcases : st = "planning" ∨ st = "docs" ∨ st = "frontend" ∨
          st = "backend" ∨ st = "testing" := by
        simpa [WORKFLOW_STEPS] using hmem
      rcases hcases with rfl | rfl | rfl | rfl | rfl
      · rw [(by decide : WorkflowManager.advanceStep ⟨"active", some "planning"⟩ =
          (some "docs", ⟨"active", some "docs"⟩))]
        exact workflowInvariant_active "docs" (by decide)
      · rw [(by decide : WorkflowManager.advanceStep ⟨"active", some "docs"⟩ =
          (some "frontend", ⟨"active", some "frontend"⟩))]
        exact workflowInvariant_active "frontend" (by decide)
      · rw [(by decide : WorkflowManager.advanceStep ⟨"active", some "frontend"⟩ =
          (some "backend", ⟨"active", some "backend"⟩))]
        exact workflowInvariant_active "backend" (by decide)
      · rw [(by decide : WorkflowManager.advanceStep ⟨"active", some "backend"⟩ =
          (some "testing", ⟨"active", some "testing"⟩))]
        exact workflowInvariant_active "testing" (by decide)
      · rw [(by decide : WorkflowManager.advanceStep ⟨"active", some "testing"⟩ =
          (none, ⟨"idle", none⟩))]
        exact workflowInvariant_idle
    · have hid : (WorkflowManager.advanceStep ⟨status, stepOpt⟩).2 = ⟨status, stepOpt⟩ := by
        unfold WorkflowManager.advanceStep
        simp [hact]
      rw [hid]
      exact hInv
  · cases step <;> exact workflowInvariant_active _ (by decide)
  · exact workflowInvariant_idle

/-- Closed witness for the C4 theorem at a concrete invariant-satisfying
state. -/
theorem workflow_operations_preserve_invariant_witness :
    WorkflowInvariant (WorkflowManager.advanceStep ⟨"active", some "docs"⟩).2 :=
  (workflow_operations_preserve_invariant ⟨"active", some "docs"⟩ WorkflowStep.planning
    ⟨by simp, fun st h => by simp_all [WORKFLOW_STEPS]⟩).2.1

theorem correctionLoopAux_succ (maxA : Nat) (stream : Nat → List Char × Bool)
    (fuel a n : Nat) :
    correctionLoopAux maxA stream (fuel + 1) a n =
      if (stream n).2 then
        if maxA ≤ a then (a, (stream n).1)
        else correctionLoopAux maxA stream fuel (a + 1) (n + 1)
      else (a, (stream n).1) := rfl

theorem correctionLoopAux_always (maxA : Nat) (stream : Nat → List Char × Bool)
    (hs : ∀ m, (stream m).2 = true) :
    ∀ (d a n : Nat), a + d = maxA →
      correctionLoopAux maxA stream (d + 1) a n = (maxA, (stream (n + d)).1) := by
  intro d
  induction d with
  | zero =>
    intro a n ha
    rw [correctionLoopAux_succ]
    simp only [hs n, if_true]
    have hle : maxA ≤ a := by omega
    rw [if_pos hle]
    have haM : a = maxA := by omega
    simp [haM]
  | succ d ih =>
    intro a n ha
    rw [correctionLoopAux_succ]
    simp only [hs n, if_true]
    have hlt : ¬ maxA ≤ a := by omega
    rw [if_neg hlt]
    have hrec := ih (a + 1) (n + 1) (by omega)
    rw [hrec]
    have harg : n + 1 + d = n + (d + 1) := by omega
    rw [harg]

/-- C5: if every (re)started stream triggers a correction request again,
the stop-correct-resume loop performs exactly `maxAttempts` retries and
then stops, surfacing the response of the last processed stream
uncorrected; and the configured maximum defaults to 2 when the setting is
absent. -/
theorem correction_loop_bounded :
    (∀ (maxAttempts : Nat) (stream : Nat → List Char × Bool),
      (∀ m, (stream m).2 = true) →
      correctionLoop maxAttempts stream 0 0 = (maxAttempts, (stream maxAttempts).1)) ∧
    maxCorrectionAttemptsOf none = 2 := by
  constructor
  · intro maxA stream hs
    unfold correctionLoop
    have h := correctionLoopAux_always maxA stream hs maxA 0 0 (by omega)
    simpa using h
  · rfl

/-- Closed witness for the C5 theorem. -/
theorem correction_loop_bounded_witness :
    correctionLoop 2 (fun n => (List.replicate n 'a', true)) 0 0 =
      (2, List.replicate 2 'a') := by
  have h := correction_loop_bounded.1 2 (fun n => (List.replicate n 'a', true))
    (fun m => rfl)
  simpa using h

theorem mem_append_right₃ {α : Type} (a : α) (l1 l2 l3 l4 : List α) (h : a ∈ l4) :
    a ∈ l1 ++ l2 ++ l3 ++ l4 := by simp [h]

/-- In the docs step (mode `"build"`), the compliance violations are
exactly the docs-branch violations: one per extracted non-conforming
write path. -/
theorem validateModeCompliance_docs_build (response : List Char)
    (hw : tagTest (chars "<dyad-write") response = true) :
    validateModeCompliance response ⟨"build", some "docs", none⟩ =
      (extractWritePaths response).filterMap (fun filePath =>
        if !(isMarkdownPath filePath && isDocsFolderPath filePath) then
          some (docsModeViolation filePath)
        else none) := by
  unfold validateModeCompliance
  simp [hw]

/-- C7: with workflow step `docs`, a write directive with path
`src/app.ts` is flagged critical while a response whose only write path is
`docs/guide.md` produces no violation; in general a path `p` is flagged
iff it is one of the extracted write paths and fails the markdown-extension
or docs-folder (or README.md) check — each path validated individually. -/
theorem docs_step_write_path_validation :
    (∃ v ∈ validateModeCompliance
        (chars "<dyad-write path=\"src/app.ts\" description=\"d\">x</dyad-write>")
        ⟨"build", some "docs", none⟩,
      v.type = ViolationType.mode_violation ∧ v.severity = Severity.critical) ∧
    validateModeCompliance
        (chars "<dyad-write path=\"docs/guide.md\" description=\"d\">x</dyad-write>")
        ⟨"build", some "docs", none⟩ = [] ∧
    (∀ (response p : List Char),
      tagTest (chars "<dyad-write") response = true →
      ((∃ v ∈ validateModeCompliance response ⟨"build", some "docs", none⟩,
          v.context = p) ↔
        (p ∈ extractWritePaths response ∧
          ¬(isMarkdownPath p = true ∧ isDocsFolderPath p = true)))) := by
  refine ⟨by decide, by decide, ?_⟩
  intro response p hw
  rw [validateModeCompliance_docs_build response hw]
  constructor
  · rintro ⟨v, hv, hctx⟩
    obtain ⟨a, ha, hfa⟩ := List.mem_filterMap.mp hv
    cases hb : (isMarkdownPath a && isDocsFolderPath a) with
    | true => rw [hb] at hfa; simp at hfa
    | false =>
      rw [hb] at hfa
      simp only [Bool.not_false, if_pos] at hfa
      have hva : v = docsModeViolation a := by simpa using hfa.symm
      have hap : a = p := by
        rw [hva] at hctx
        simpa [docsModeViolation] using hctx
      subst hap
      refine ⟨ha, ?_⟩
      intro hcon
      rw [hcon.1, hcon.2] at hb
      simp at hb
  · rintro ⟨hp, hbad⟩
    refine ⟨docsModeViolation p, ?_, rfl⟩
    refine List.mem_filterMap.mpr ⟨p, hp, ?_⟩
    have hb : (isMarkdownPath p && isDocsFolderPath p) = false := by
      cases h1 : isMarkdownPath p <;> cases h2 : isDocsFolderPath p <;> simp_all
    rw [hb]
    simp

/-- Closed witness for the C7 theorem. -/
theorem docs_step_write_path_validation_witness :
    ∃ v ∈ validateModeCompliance (chars "<dyad-write path=\"a.ts\">y</dyad-write>")
        ⟨"build", some "docs", none⟩,
      v.context = chars "a.ts" :=
  (docs_step_write_path_validation.2.2 _ (chars "a.ts") (by decide)).mpr (by decide)

/-- C8: in ask mode, every response containing a write directive open tag
yields a critical mode violation, for any workflow step. -/
theorem ask_mode_write_directive_violation :
    ∀ (response : List Char) (ws : Option String),
      tagTest (chars "<dyad-write") response = true →
      ∃ v ∈ validateModeCompliance response ⟨"ask", ws, none⟩,
        v.type = ViolationType.mode_violation ∧ v.severity = Severity.critical := by
  intro response ws hw
  unfold validateModeCompliance
  simp only []
  refine ⟨{ type := ViolationType.mode_violation
            severity := Severity.critical
            message := chars "Ask mode prohibits file operations. This mode is for questions and explanations only."
            context := chars "Found dyad tags in ask mode" }, ?_, rfl, rfl⟩
  apply mem_append_right₃
  simp [hw]

/-- Closed witness for the C8 theorem. -/
theorem ask_mode_write_directive_violation_witness :
    ∃ v ∈ validateModeCompliance (chars "<dyad-write path=\"a.ts\">x</dyad-write>")
        ⟨"ask", none, none⟩,
      v.type = ViolationType.mode_violation ∧ v.severity = Severity.critical :=
  ask_mode_write_directive_violation _ none (by decide)

/-- C9 (corrected), counterexample to the claim as stated: a router reply
that contains the delimiter pair with nothing between the delimiters.  The
pair is present, but `if (match && match[1])` treats the empty captured
group as falsy, so `attemptCorrection` returns `shouldRetry: false`. -/
theorem attemptCorrection_empty_capture_counterexample :
    specContainsDelimiterPair
      (chars "<corrective-instruction></corrective-instruction>") = true ∧
    (attemptCorrection (Except.ok
      (chars "<corrective-instruction></corrective-instruction>"))).shouldRetry = false := by
  decide

/-- C9 (amended): `attemptCorrection` returns `shouldRetry: true` iff the
router call succeeded and its reply contains the delimiter pair with a
nonempty captured text between the first open delimiter and the first
close delimiter after it; in every other case (delimiter absent, empty
capture, or a throw from the router call) it returns `shouldRetry: false`
together with a reason, never raising. -/
theorem attemptCorrection_retry_iff_nonempty_capture :
    ∀ outcome : Except (List Char) (List Char),
      ((attemptCorrection outcome).shouldRetry = true ↔
        ∃ r i k, outcome = Except.ok r ∧
          findSubstrIdx (chars "<corrective-instruction>") r = some i ∧
          findSubstrIdx (chars "</corrective-instruction>") (r.drop (i + 24)) = some k ∧
          (r.drop (i + 24)).take k ≠ []) ∧
      ((attemptCorrection outcome).shouldRetry = false →
        (attemptCorrection outcome).reason.isSome = true) := by
  intro outcome
  cases outcome with
  | error e =>
    refine ⟨⟨fun h => ?_, fun h => ?_⟩, fun _ => rfl⟩
    · simp [attemptCorrection] at h
    · obtain ⟨r, i, k, hr, _⟩ := h
      exact Except.noConfusion hr
  | ok r =>
    cases hfi : findSubstrIdx (chars "<corrective-instruction>") r with
    | none =>
      have hres : attemptCorrection (Except.ok r) =
          { shouldRetry := false, prompt := none,
            reason := some (chars "Could not generate corrective instruction (no tags found)") } := by
        simp [attemptCorrection, extractCorrectiveInstruction, hfi]
      rw [hres]
      refine ⟨⟨fun h => by simp at h, fun h => ?_⟩, fun _ => rfl⟩
      obtain ⟨r', i, k, hr, hfi', _⟩ := h
      have hrr : r' = r := (Except.ok.inj hr).symm
      rw [hrr, hfi] at hfi'
      exact Option.noConfusion hfi'
    | some i =>
      cases hfc : findSubstrIdx (chars "</corrective-instruction>") (r.drop (i + 24)) with
      | none =>
        have hres : attemptCorrection (Except.ok r) =
            { shouldRetry := false, prompt := none,
              reason := some (chars "Could not generate corrective instruction (no tags found)") } := by
          simp [attemptCorrection, extractCorrectiveInstruction, hfi, hfc]
        rw [hres]
        refine ⟨⟨fun h => by simp at h, fun h => ?_⟩, fun _ => rfl⟩
        obtain ⟨r', i', k, hr, hfi', hfc', _⟩ := h
        have hrr : r' = r := (Except.ok.inj hr).symm
        rw [hrr] at hfi' hfc'
        rw [hfi] at hfi'
        have hii : i' = i := (Option.some.inj hfi').symm
        rw [hii, hfc] at hfc'
        exact Option.noConfusion hfc'
      | some k =>
        cases hemp : ((r.drop (i + 24)).take k).isEmpty with
        | true =>
          have hnil : (r.drop (i + 24)).take k = [] := List.isEmpty_iff.mp hemp
          have hres : attemptCorrection (Except.ok r) =
              { shouldRetry := false, prompt := none,
                reason := some (chars "Could not generate corrective instruction (no tags found)") } := by
            simp [attemptCorrection, extractCorrectiveInstruction, hfi, hfc, hnil]
          rw [hres]
          refine ⟨⟨fun h => by simp at h, fun h => ?_⟩, fun _ => rfl⟩
          obtain ⟨r', i', k', hr, hfi', hfc', hne⟩ := h
          have hrr : r' = r := (Except.ok.inj hr).symm
          rw [hrr] at hfi' hfc' hne
          rw [hfi] at hfi'
          have hii : i' = i := (Option.some.inj hfi').symm
          rw [hii] at hfc' hne
          rw [hfc] at hfc'
          have hkk : k' = k := (Option.some.inj hfc').symm
          rw [hkk] at hne
          exact (hne hnil).elim
        | false =>
          have hnnil : (r.drop (i + 24)).take k ≠ [] := by
            intro hx
            rw [hx] at hemp
            simp at hemp
          have hres : attemptCorrection (Except.ok r) =
              { shouldRetry := true, prompt := some (trimChars ((r.drop (i + 24)).take k)),
                reason := none } := by
            simp [attemptCorrection, extractCorrectiveInstruction, hfi, hfc, hnnil]
          rw [hres]
          refine ⟨⟨fun _ => ⟨r, i, k, rfl, hfi, hfc, hnnil⟩, fun _ => rfl⟩, fun h => ?_⟩
          simp at h

/-- Closed witness for the amended C9 theorem. -/
theorem attemptCorrection_retry_iff_nonempty_capture_witness :
    (attemptCorrection (Except.ok
      (chars "<corrective-instruction>fix</corrective-instruction>"))).shouldRetry = true :=
  (attemptCorrection_retry_iff_nonempty_capture
      (Except.ok (chars "<corrective-instruction>fix</corrective-instruction>"))).1.mpr
    ⟨chars "<corrective-instruction>fix</corrective-instruction>", 0, 3, rfl,
      by decide, by decide, by decide⟩

theorem replaceAllAux_cons (pat rep : List Char) (fuel : Nat) (c : Char) (t : List Char) :
    replaceAllAux pat rep (fuel + 1) (c :: t) =
      if pat ≠ [] ∧ pat.isPrefixOf (c :: t) then
        rep ++ replaceAllAux pat rep fuel ((c :: t).drop pat.length)
      else c :: replaceAllAux pat rep fuel t := rfl

theorem isPrefixOf_eq_append (pat : List Char) :
    ∀ s : List Char, pat.isPrefixOf s = true → s = pat ++ s.drop pat.length := by
  induction pat with
  | nil => intro s _; simp
  | cons p ps ih =>
    intro s hp
    cases s with
    | nil => simp at hp
    | cons c t =>
      rw [List.isPrefixOf_cons₂] at hp
      simp only [Bool.and_eq_true, beq_iff_eq] at hp
      obtain ⟨rfl, hps⟩ := hp
      simp only [List.length_cons, List.drop_succ_cons, List.cons_append, List.cons.injEq,
        true_and]
      exact ih t hps

theorem containsSubstr_append_head_not_mem (p : Char) (ps : List Char) :
    ∀ (pre s : List Char), p ∉ pre →
      containsSubstr (p :: ps) (pre ++ s) = containsSubstr (p :: ps) s := by
  intro pre
  induction pre with
  | nil => intro s _; rfl
  | cons d pre ih =>
    intro s hd
    rw [List.cons_append, containsSubstr_cons]
    have hpd : ¬ (p = d) := fun h => hd (by rw [h]; exact List.mem_cons_self d pre)
    have hpre : (p :: ps).isPrefixOf (d :: (pre ++ s)) = false := by
      rw [List.isPrefixOf_cons₂]
      simp [hpd]
    rw [hpre]
    simp only [Bool.false_or]
    exact ih s (fun hm => hd (List.mem_cons_of_mem d hm))

theorem forall₂_append_char {R : Char → Char → Prop} :
    ∀ {l1 l2 u1 u2 : List Char}, List.Forall₂ R l1 l2 → List.Forall₂ R u1 u2 →
      List.Forall₂ R (l1 ++ u1) (l2 ++ u2) := by
  intro l1 l2 u1 u2 h1 h2
  induction h1 with
  | nil => simpa using h2
  | cons hab _ ih => exact List.Forall₂.cons hab ih

/-- Model: `replaceAll` with a pattern `p :: ps` and replacement `q :: ps` only
ever substitutes `q` for `p` at occurrence heads: input and output are
pointwise related. -/
theorem replaceAllAux_subst (p q : Char) (ps : List Char) :
    ∀ (fuel : Nat) (s : List Char), s.length ≤ fuel →
      List.Forall₂ (fun a b => b = a ∨ (a = p ∧ b = q)) s
        (replaceAllAux (p :: ps) (q :: ps) fuel s) := by
  intro fuel
  induction fuel with
  | zero =>
    intro s hs
    have hnil : s = [] := List.eq_nil_of_length_eq_zero (Nat.le_zero.mp hs)
    subst hnil
    exact List.Forall₂.nil
  | succ fuel ih =>
    intro s hs
    cases s with
    | nil => exact List.Forall₂.nil
    | cons c t =>
      simp only [List.length_cons] at hs
      by_cases hpre : (p :: ps).isPrefixOf (c :: t) = true
      · rw [replaceAllAux_cons, if_pos ⟨List.cons_ne_nil p ps, hpre⟩]
        have hdecomp := isPrefixOf_eq_append (p :: ps) (c :: t) hpre
        set rest := (c :: t).drop (p :: ps).length with hrest
        rw [hdecomp]
        refine forall₂_append_char ?_ ?_
        · exact List.Forall₂.cons (Or.inr ⟨rfl, rfl⟩)
            (List.forall₂_same.mpr fun x _ => Or.inl rfl)
        · refine ih rest ?_
          rw [hrest]
          simp only [List.length_drop, List.length_cons]
          omega
      · rw [replaceAllAux_cons, if_neg (fun hh => hpre hh.2)]
        exact List.Forall₂.cons (Or.inl rfl) (ih t (by omega))

theorem replaceAll_subst (p q : Char) (ps s : List Char) :
    List.Forall₂ (fun a b => b = a ∨ (a = p ∧ b = q)) s
      (replaceAll (p :: ps) (q :: ps) s) :=
  replaceAllAux_subst p q ps s.length s (Nat.le_refl _)

/-- A prefix of the substituted text containing no `q` was already a
prefix of the original. -/
theorem isPrefixOf_transfer (p q : Char) :
    ∀ (w s s' : List Char),
      List.Forall₂ (fun a b => b = a ∨ (a = p ∧ b = q)) s s' →
      q ∉ w → w.isPrefixOf s' = true → w.isPrefixOf s = true := by
  intro w
  induction w with
  | nil => intro s s' _ _ _; cases s <;> rfl
  | cons a w ih =>
    intro s s' hf hq hp
    cases hf with
    | nil => simp at hp
    | cons hab htail =>
      rename_i c c' t t'
      rw [List.isPrefixOf_cons₂] at hp ⊢
      simp only [Bool.and_eq_true, beq_iff_eq] at hp ⊢
      obtain ⟨hac, hw⟩ := hp
      rcases hab with h | ⟨hcp, hcq⟩
      · refine ⟨hac.trans h, ?_⟩
        exact ih t t' htail (fun hm => hq (List.mem_cons_of_mem a hm)) hw
      · exfalso
        apply hq
        have haq : a = q := hac.trans hcq
        rw [haq]
        exact List.mem_cons_self q w

/-- A substring of the substituted text containing no `q` was already a
substring of the original. -/
theorem containsSubstr_transfer (p q : Char) (w : List Char) (hq : q ∉ w) :
    ∀ {s s' : List Char},
      List.Forall₂ (fun a b => b = a ∨ (a = p ∧ b = q)) s s' →
      containsSubstr w s' = true → containsSubstr w s = true := by
  intro s s' hf
  induction hf with
  | nil => intro h; exact h
  | cons hab htail ih =>
    rename_i c c' t t'
    intro h
    rw [containsSubstr_cons] at h ⊢
    simp only [Bool.or_eq_true] at h ⊢
    rcases h with h | h
    · exact Or.inl (isPrefixOf_transfer p q w (c :: t) (c' :: t')
        (List.Forall₂.cons hab htail) hq h)
    · exact Or.inr (ih h)

/-- Core safety of the substitution: the output of `replaceAll (p::ps)
(q::ps)` never contains the pattern `p :: ps` again (`p ≠ q`, and neither
`p` nor `q` occurs in `ps`). -/
theorem replaceAllAux_no_pat (p q : Char) (ps : List Char)
    (hpq : p ≠ q) (hps : p ∉ ps) (hqs : q ∉ ps) :
    ∀ (fuel : Nat) (s : List Char), s.length ≤ fuel →
      containsSubstr (p :: ps) (replaceAllAux (p :: ps) (q :: ps) fuel s) = false := by
  intro fuel
  induction fuel with
  | zero =>
    intro s hs
    have hnil : s = [] := List.eq_nil_of_length_eq_zero (Nat.le_zero.mp hs)
    subst hnil
    rfl
  | succ fuel ih =>
    intro s hs
    cases s with
    | nil => rfl
    | cons c t =>
      simp only [List.length_cons] at hs
      by_cases hpre : (p :: ps).isPrefixOf (c :: t) = true
      · rw [replaceAllAux_cons, if_pos ⟨List.cons_ne_nil p ps, hpre⟩]
        have hnm : p ∉ q :: ps := by
          intro hm
          rcases List.mem_cons.mp hm with h | h
          · exact hpq h
          · exact hps h
        rw [containsSubstr_append_head_not_mem p ps (q :: ps) _ hnm]
        refine ih _ ?_
        simp only [List.length_drop, List.length_cons]
        omega
      · rw [replaceAllAux_cons, if_neg (fun hh => hpre hh.2)]
        rw [containsSubstr_cons]
        have h2 : containsSubstr (p :: ps) (replaceAllAux (p :: ps) (q :: ps) fuel t) =
            false := ih t (by omega)
        rw [h2]
        simp only [Bool.or_false]
        cases hpf : (p :: ps).isPrefixOf (c :: replaceAllAux (p :: ps) (q :: ps) fuel t) with
        | false => rfl
        | true =>
          exfalso
          rw [List.isPrefixOf_cons₂] at hpf
          simp only [Bool.and_eq_true, beq_iff_eq] at hpf
          obtain ⟨hpc, hpsf⟩ := hpf
          have hft := replaceAllAux_subst p q ps fuel t (by omega)
          have hpst : ps.isPrefixOf t = true :=
            isPrefixOf_transfer p q ps t _ hft hqs hpsf
          apply hpre
          rw [List.isPrefixOf_cons₂]
          simp [hpc, hpst]

/-- When the pattern does not occur, `replaceAll` is the identity. -/
theorem replaceAllAux_id_of_not_contains (pat rep : List Char) :
    ∀ (fuel : Nat) (s : List Char), s.length ≤ fuel →
      containsSubstr pat s = false → replaceAllAux pat rep fuel s = s := by
  intro fuel
  induction fuel with
  | zero => intro s _ _; rfl
  | succ fuel ih =>
    intro s hs hcon
    cases s with
    | nil => rfl
    | cons c t =>
      simp only [List.length_cons] at hs
      rw [containsSubstr_cons] at hcon
      simp only [Bool.or_eq_false_iff] at hcon
      rw [replaceAllAux_cons, if_neg (fun hh => by rw [hcon.1] at hh; exact Bool.noConfusion hh.2)]
      rw [ih t (by omega) hcon.2]

theorem replaceAll_id_of_not_contains (pat rep s : List Char)
    (h : containsSubstr pat s = false) : replaceAll pat rep s = s :=
  replaceAllAux_id_of_not_contains pat rep s.length s (Nat.le_refl _) h

/-- C10: for every input text, `escapeDyadTags` produces a string that
contains neither `<dyad` nor `</dyad` (both replaced with the fullwidth
look-alike), and escaping is idempotent: applying it to its own output
changes nothing. -/
theorem escapeDyadTags_no_directive_and_idempotent :
    ∀ text : List Char,
      containsSubstr (chars "<dyad") (escapeDyadTags text) = false ∧
      containsSubstr (chars "</dyad") (escapeDyadTags text) = false ∧
      escapeDyadTags (escapeDyadTags text) = escapeDyadTags text := by
  intro text
  have hopen : chars "<dyad" = '<' :: chars "dyad" := by decide
  have hclose : chars "</dyad" = '<' :: chars "/dyad" := by decide
  have hropen : chars "＜dyad" = '＜' :: chars "dyad" := by decide
  have hrclose : chars "＜/dyad" = '＜' :: chars "/dyad" := by decide
  have hB : containsSubstr (chars "<dyad")
      (replaceAll (chars "<dyad") (chars "＜dyad") text) = false := by
    rw [hopen, hropen]
    exact replaceAllAux_no_pat '<' '＜' (chars "dyad") (by decide) (by decide) (by decide)
      text.length text (Nat.le_refl _)
  have hA : ∀ X : List Char, containsSubstr (chars "</dyad")
      (replaceAll (chars "</dyad") (chars "＜/dyad") X) = false := by
    intro X
    rw [hclose, hrclose]
    exact replaceAllAux_no_pat '<' '＜' (chars "/dyad") (by decide) (by decide) (by decide)
      X.length X (Nat.le_refl _)
  have hsub : List.Forall₂ (fun a b => b = a ∨ (a = '<' ∧ b = '＜'))
      (replaceAll (chars "<dyad") (chars "＜dyad") text)
      (replaceAll (chars "</dyad") (chars "＜/dyad")
        (replaceAll (chars "<dyad") (chars "＜dyad") text)) := by
    rw [hclose, hrclose]
    exact replaceAll_subst '<' '＜' (chars "/dyad") _
  have hC : containsSubstr (chars "<dyad") (escapeDyadTags text) = false := by
    unfold escapeDyadTags
    cases hval : containsSubstr (chars "<dyad")
        (replaceAll (chars "</dyad") (chars "＜/dyad")
          (replaceAll (chars "<dyad") (chars "＜dyad") text)) with
    | false => rfl
    | true =>
      exfalso
      have := containsSubstr_transfer '<' '＜' (chars "<dyad") (by decide) hsub hval
      rw [hB] at this
      exact Bool.noConfusion this
  refine ⟨hC, ?_, ?_⟩
  · unfold escapeDyadTags
    exact hA _
  · show replaceAll (chars "</dyad") (chars "＜/dyad")
        (replaceAll (chars "<dyad") (chars "＜dyad") (escapeDyadTags text)) =
      escapeDyadTags text
    rw [replaceAll_id_of_not_contains _ _ _ hC]
    have hcloseE : containsSubstr (chars "</dyad") (escapeDyadTags text) = false := by
      unfold escapeDyadTags
      exact hA _
    rw [replaceAll_id_of_not_contains _ _ _ hcloseE]
